import Mathlib

/-!
# cfspeedtest: timing instrumentation and trial loops

A shallow embedding of `speedtest/speedtest.go` (`Speedtest.Download`,
`Speedtest.Upload`, `Speedtest.RunAllTests`, `headers.Less`), `stats/sum.go`
(`Sum`) and `stats/utils.go` (`copyslice`, `sortedCopy`, `sortedCopyDif`).

Modelling conventions.

* A `time.Time` is the number of nanoseconds elapsed since Go's zero Time; the
  zero value is `0` and `Time.IsZero` tests for it.  `Time.Sub` is Go's
  saturating subtraction into `time.Duration` (a signed 64-bit nanosecond count).
* The `httptrace.ClientTrace` hooks are a step function `ClientTrace.fire` on the
  seven timestamp variables `t0 .. t6`; one exchange supplies the list of hooks
  that fired, each with the `time.Now()` reading taken inside the hook.
* `client.Do` either yields a response or an error with a nil response
  (`resp = none`).  Dereferencing the nil response is a run-time panic, which the
  model renders as the result `none`.
* What the run-time can allocate (`Runtime`) and the functions of the packages
  whose source is absent (`Helpers`) are parameters; a function that returns a
  single value and no error may panic, so its result is an `Option`.
* Diagnostics written to standard error are not part of the model.
-/

namespace stats

/-! ## Package stats -/

/-- The error type of `stats/errors.go`. -/
structure statsError where
  err : String
  deriving DecidableEq, Repr

/-- The value `EmptyInputErr` of `stats/errors.go`. -/
def EmptyInputErr : statsError := ⟨"Input must not be empty."⟩

/-- The loop `for _, n := range input { sum += n }` of `Sum`. -/
def sumLoop {F : Type} [Add F] : F → List F → F
  | sum, [] => sum
  | sum, n :: rest => sumLoop (sum + n) rest

/-- The function `Sum` of `stats/sum.go` over a number type `F` carrying the
addition and the zero of `float64`; `NaN` is the value of `math.NaN()`.  The
named result `sum` starts at its zero value. -/
def Sum {F : Type} [Add F] [Zero F] (NaN : F) (input : List F) : F × Option statsError :=
  if input.length = 0 then (NaN, some EmptyInputErr)
  else (sumLoop 0 input, none)

end stats

namespace speedtest

/-! ## Instants and durations -/

/-- A `time.Time`: nanoseconds since the zero Time. -/
abbrev Time := Nat

/-- A `time.Duration`: signed nanoseconds. -/
abbrev Duration := Int

/-- Smallest `time.Duration` (`-1 << 63`). -/
def minDuration : Duration := -(2 ^ 63)

/-- Largest `time.Duration` (`1<<63 - 1`). -/
def maxDuration : Duration := 2 ^ 63 - 1

/-- The method `Time.IsZero`. -/
def Time.IsZero (t : Time) : Bool := t == 0

/-- The method `t.Sub(u)`: the duration `t - u`, saturated to the range of
`time.Duration`. -/
def Time.Sub (t u : Time) : Duration :=
  let d : Int := (t : Int) - (u : Int)
  if d < minDuration then minDuration
  else if maxDuration < d then maxDuration
  else d

/-! ## The client trace -/

/-- The hooks of `httptrace.ClientTrace` that the program registers. -/
inductive TraceEvent where
  | DNSStart
  | DNSDone
  | ConnectStart
  | ConnectDone
  | GotConn
  | GotFirstResponseByte
  | TLSHandshakeStart
  | TLSHandshakeDone
  deriving DecidableEq, Repr

/-- The variables `t0, t1, t2, t3, t4, t5, t6` declared in the loop body. -/
structure Clock where
  t0 : Time
  t1 : Time
  t2 : Time
  t3 : Time
  t4 : Time
  t5 : Time
  t6 : Time
  deriving DecidableEq, Repr

/-- The declaration `var t0, t1, t2, t3, t4, t5, t6 time.Time`: all zero. -/
def Clock.zero : Clock := ⟨0, 0, 0, 0, 0, 0, 0⟩

/-- One hook of the `ClientTrace` literal firing while the clock reads `now`. -/
def ClientTrace.fire (c : Clock) (e : TraceEvent) (now : Time) : Clock :=
  match e with
  | .DNSStart => { c with t0 := now }
  | .DNSDone => { c with t1 := now }
  | .ConnectStart => if Time.IsZero c.t1 then { c with t1 := now } else c
  | .ConnectDone => { c with t2 := now }
  | .GotConn => { c with t3 := now }
  | .GotFirstResponseByte => { c with t4 := now }
  | .TLSHandshakeStart => { c with t5 := now }
  | .TLSHandshakeDone => { c with t6 := now }

/-- The timestamp variables after the hooks of one exchange fired in order. -/
def runTrace (events : List (TraceEvent × Time)) : Clock :=
  events.foldl (fun c e => ClientTrace.fire c e.1 e.2) Clock.zero

/-! ## One exchange -/

/-- The part of `http.Response` the program reads. -/
structure Response where
  StatusCode : Int
  deriving DecidableEq, Repr

/-- What the network does during one loop iteration: the hooks that fire, the
result of `client.Do` (`none` when it returns an error and a nil response), and
the reading `t7 := time.Now()` taken after the body was read. -/
structure Exchange where
  events : List (TraceEvent × Time)
  resp : Option Response
  t7 : Time
  deriving DecidableEq, Repr

/-- The five slices a trial returns, in the order of the return statement:
`fulltimes, servertimes, tcptimes, dnstimes, transfertimes`. -/
structure Samples where
  fulltimes : List Duration
  servertimes : List Duration
  tcptimes : List Duration
  dnstimes : List Duration
  transfertimes : List Duration
  deriving DecidableEq, Repr

/-- The five `var ... []time.Duration` declarations: nil slices. -/
def Samples.empty : Samples := ⟨[], [], [], [], []⟩

/-- The scheme of `parseURL("http://speed.cloudflare.com/__down?bytes=" + ...)`:
the literal carries an explicit scheme, which `url.Parse` keeps. -/
def download_url_scheme : String := "http"

/-- The scheme of `parseURL("http://speed.cloudflare.com/__up")`. -/
def upload_url_scheme : String := "http"

/-- The statements of one iteration of the loop of `Download` that follow
`client.Do`, for a URL with the given scheme.  `resp.Body` on a nil response
panics (`none`). -/
def downloadIteration (scheme : String) (x : Exchange) (acc : Samples) : Option Samples :=
  match x.resp with
  | none => none
  | some resp =>
    if resp.StatusCode = 200 then
      let c := runTrace x.events
      let t1 := c.t1
      let t3 := c.t3
      let t4 := c.t4
      let t7 := x.t7
      let t0 := if Time.IsZero c.t0 then t1 else c.t0
      if scheme = "https" then
        some { dnstimes := acc.dnstimes ++ [Time.Sub t1 t0]
               tcptimes := acc.tcptimes ++ [Time.Sub t3 t1]
               servertimes := acc.servertimes ++ [Time.Sub t4 t3]
               fulltimes := acc.fulltimes ++ [Time.Sub t7 t0]
               transfertimes := acc.transfertimes ++ [Time.Sub t7 t4] }
      else if scheme = "http" then
        some { dnstimes := acc.dnstimes ++ [Time.Sub t1 t0]
               tcptimes := acc.tcptimes ++ [Time.Sub t3 t1]
               servertimes := acc.servertimes ++ [Time.Sub t4 t3]
               fulltimes := acc.fulltimes ++ [Time.Sub t7 t0]
               transfertimes := acc.transfertimes ++ [Time.Sub t7 t4] }
      else some acc
    else some acc

/-- The statements of one iteration of the loop of `Upload` that follow
`client.Do`. -/
def uploadIteration (scheme : String) (x : Exchange) (acc : Samples) : Option Samples :=
  match x.resp with
  | none => none
  | some resp =>
    if resp.StatusCode = 200 then
      let c := runTrace x.events
      let t1 := c.t1
      let t3 := c.t3
      let t4 := c.t4
      let t7 := x.t7
      let t0 := if Time.IsZero c.t0 then t1 else c.t0
      if scheme = "https" then
        some { dnstimes := acc.dnstimes ++ [Time.Sub t1 t0]
               tcptimes := acc.tcptimes ++ [Time.Sub t3 t1]
               servertimes := acc.servertimes ++ [Time.Sub t4 t3]
               fulltimes := acc.fulltimes ++ [Time.Sub t7 t0]
               transfertimes := acc.transfertimes ++ [Time.Sub t7 t3] }
      else if scheme = "http" then
        some { dnstimes := acc.dnstimes ++ [Time.Sub t1 t0]
               tcptimes := acc.tcptimes ++ [Time.Sub t3 t1]
               servertimes := acc.servertimes ++ [Time.Sub t4 t3]
               fulltimes := acc.fulltimes ++ [Time.Sub t7 t0]
               transfertimes := acc.transfertimes ++ [Time.Sub t7 t3] }
      else some acc
    else some acc

/-- The loop `for i := lo; i < lo + n; i++ { body }` over a state that a panic
in the body abandons. -/
def forLoop {σ : Type} (body : Nat → σ → Option σ) : Nat → Nat → σ → Option σ
  | _, 0, s => some s
  | i, n + 1, s =>
    match body i s with
    | none => none
    | some s' => forLoop body (i + 1) n s'

/-- The method `Speedtest.Download(numbytes, iterations)`; `net i` is what the
network does in iteration `i`. -/
def Download (net : Nat → Exchange) (_numbytes iterations : Int) : Option Samples :=
  forLoop (fun i acc => downloadIteration download_url_scheme (net i) acc)
    0 iterations.toNat Samples.empty

/-- What the Go run-time the program runs on can allocate.  The limits are not
part of the source and are parameters of the model. -/
structure Runtime where
  /-- Whether `make([]byte, n)` returns for a length `n ≥ 0`; above the
  allocation limit of the platform it panics (`makeslice: len out of range`). -/
  makeBytes : Int → Bool
  /-- Whether `string(thedata)` and `data.Encode()` return for a payload of `n`
  bytes: the form encoding takes three bytes for each byte of the payload. -/
  encodeBytes : Int → Bool

/-- The method `Speedtest.Upload(numbytes, iterations)`.  `make([]byte, numbytes)`
panics on a negative length and on a length the run-time cannot allocate; every
iteration converts and encodes the payload before it issues the request. -/
def Upload (rt : Runtime) (net : Nat → Exchange) (numbytes iterations : Int) : Option Samples :=
  if numbytes < 0 ∨ rt.makeBytes numbytes = false then none
  else
    forLoop (fun i acc =>
        if rt.encodeBytes numbytes then uploadIteration upload_url_scheme (net i) acc
        else none)
      0 iterations.toNat Samples.empty

/-! ## The orchestration -/

/-- The struct `Test`. -/
structure Test where
  NumBytes : Int
  Iterations : Int
  Name : String
  deriving DecidableEq, Repr

/-- The struct `Speedtest`. -/
structure Speedtest where
  UploadTests : List Test
  DownloadTests : List Test
  deriving DecidableEq, Repr

/-- The package variable `latencyreps`. -/
def latencyreps : Int := 20

/-- Go's `int` arithmetic on a 64-bit platform: the result reduced modulo `2^64`
into the signed range. -/
def wrapInt64 (x : Int) : Int := (x + 2 ^ 63) % 2 ^ 64 - 2 ^ 63

/-- The expression `(float64(NumBytes*8) / avg) / 1e6` that `RunAllTests` assigns
to `downspeed` and to `upspeed`.  The product is formed in `int`; the conversion
and the two divisions are those of the number type `F`. -/
def speedMbps {F : Type} [Div F] [IntCast F] (NumBytes : Int) (avg : F) : F :=
  (((wrapInt64 (NumBytes * 8) : Int) : F) / avg) / ((1000000 : Int) : F)

/-- The functions `RunAllTests` calls whose source is not part of the
development: the three functions of package `timeCalculations` and
`stats.Percentile`.  They are parameters of the model.  A function of
`timeCalculations` returns one `float64` and no error, so that it can only fail
by a panic, rendered as `none`; `stats.Percentile` returns a value and an
error. -/
structure Helpers (F : Type) where
  CalculateCorrectedDeviation : List Duration → Option F
  CalculateAverageDuration : List Duration → Option F
  CalculateAverageDurationSeconds : List Duration → Option F
  Percentile : List F → F → F × Option stats.statsError

/-- What a run of `RunAllTests` does that is visible from outside: the trials it
starts, the calls of `stats.Percentile`, and the lines it prints (the label and
the value handed to the format verb). -/
inductive Event (F : Type) where
  | download (numbytes iterations : Int)
  | upload (numbytes iterations : Int)
  | percentile (input : List F) (percent : F)
  | printInt (label : String) (value : Int)
  | print (label : String) (value : F)

/-- The statements of `RunAllTests` from the latency trial to the line
`cf_dnslookup_ms`: their events, and whether they were completed (`false`: the
trial or a helper function panicked). -/
def latencyTest {F : Type} [Div F] [IntCast F] (h : Helpers F) (net : Nat → Exchange) :
    List (Event F) × Bool :=
  match Download net 0 latencyreps with
  | none => ([Event.download 0 latencyreps], false)
  | some r =>
    match h.CalculateCorrectedDeviation r.tcptimes, h.CalculateAverageDuration r.tcptimes,
        h.CalculateAverageDuration r.dnstimes with
    | some calc_tcp_jitter, some avg_latency, some avg_dnstime =>
      ([Event.download 0 latencyreps,
        Event.print "cf_latency_ms" (avg_latency / ((1000000 : Int) : F)),
        Event.print "cf_tcp_jitter_ms" (calc_tcp_jitter / ((1000000 : Int) : F)),
        Event.print "cf_dnslookup_ms" (avg_dnstime / ((1000000 : Int) : F))], true)
    | _, _, _ => ([Event.download 0 latencyreps], false)

/-- The body of the loop over `s.DownloadTests` for the test `t`: its events, and
the value of `downspeed`, or `none` for it when the trial or a helper function
panicked. -/
def downloadTest {F : Type} [Div F] [IntCast F] (h : Helpers F) (net : Nat → Exchange)
    (t : Test) : List (Event F) × Option F :=
  match Download net t.NumBytes t.Iterations with
  | none => ([Event.download t.NumBytes t.Iterations], none)
  | some r =>
    match h.CalculateCorrectedDeviation r.tcptimes,
        h.CalculateAverageDurationSeconds r.transfertimes,
        h.CalculateAverageDuration r.fulltimes with
    | some down_tcp_jitter, some avg_downtransfer, some down_latency =>
      ([Event.download t.NumBytes t.Iterations,
        Event.print ("cf_" ++ t.Name ++ "_download_latency_ms")
          (down_latency / ((1000000 : Int) : F)),
        Event.print ("cf_" ++ t.Name ++ "_download_Mbps")
          (speedMbps t.NumBytes avg_downtransfer),
        Event.print ("cf_" ++ t.Name ++ "_download_tcp_jitter")
          (down_tcp_jitter / ((1000000 : Int) : F))],
       some (speedMbps t.NumBytes avg_downtransfer))
    | _, _, _ => ([Event.download t.NumBytes t.Iterations], none)

/-- The body of the loop over `s.UploadTests` for the test `t`. -/
def uploadTest {F : Type} [Div F] [IntCast F] (rt : Runtime) (h : Helpers F)
    (net : Nat → Exchange) (t : Test) : List (Event F) × Option F :=
  match Upload rt net t.NumBytes t.Iterations with
  | none => ([Event.upload t.NumBytes t.Iterations], none)
  | some r =>
    match h.CalculateCorrectedDeviation r.tcptimes,
        h.CalculateAverageDurationSeconds r.transfertimes,
        h.CalculateAverageDuration r.fulltimes with
    | some up_tcp_jitter, some avg_uptransfer, some up_latency =>
      ([Event.upload t.NumBytes t.Iterations,
        Event.print ("cf_" ++ t.Name ++ "_upload_latency_ms")
          (up_latency / ((1000000 : Int) : F)),
        Event.print ("cf_" ++ t.Name ++ "_upload_Mbps")
          (speedMbps t.NumBytes avg_uptransfer),
        Event.print ("cf_" ++ t.Name ++ "_upload_tcp_jitter")
          (up_tcp_jitter / ((1000000 : Int) : F))],
       some (speedMbps t.NumBytes avg_uptransfer))
    | _, _, _ => ([Event.upload t.NumBytes t.Iterations], none)

/-- The loop over `s.DownloadTests`; `k` is the number of trials started before
this one and `results` is `download_results`.  Returns the events of the loop
and the final `download_results`, or `none` for it when the run panicked. -/
def downloadTests {F : Type} [Div F] [IntCast F] (h : Helpers F) (net : Nat → Nat → Exchange) :
    List Test → Nat → List F → List (Event F) × Option (List F)
  | [], _, results => ([], some results)
  | t :: rest, k, results =>
    match (downloadTest h (net k) t).2 with
    | none => ((downloadTest h (net k) t).1, none)
    | some downspeed =>
      ((downloadTest h (net k) t).1
          ++ (downloadTests h net rest (k + 1) (results ++ [downspeed])).1,
        (downloadTests h net rest (k + 1) (results ++ [downspeed])).2)

/-- The loop over `s.UploadTests`. -/
def uploadTests {F : Type} [Div F] [IntCast F] (rt : Runtime) (h : Helpers F)
    (net : Nat → Nat → Exchange) :
    List Test → Nat → List F → List (Event F) × Option (List F)
  | [], _, results => ([], some results)
  | t :: rest, k, results =>
    match (uploadTest rt h (net k) t).2 with
    | none => ((uploadTest rt h (net k) t).1, none)
    | some upspeed =>
      ((uploadTest rt h (net k) t).1
          ++ (uploadTests rt h net rest (k + 1) (results ++ [upspeed])).1,
        (uploadTests rt h net rest (k + 1) (results ++ [upspeed])).2)

/-- The method `Speedtest.RunAllTests`.  `net k i` is what the network does in
iteration `i` of the `k`-th trial the run starts.  The result is the list of
events of the run and whether the run reached its end (`false`: a panic ended
it). -/
def RunAllTests {F : Type} [Div F] [IntCast F] (rt : Runtime) (h : Helpers F) (s : Speedtest)
    (start_timestamp : Int) (net : Nat → Nat → Exchange) : List (Event F) × Bool :=
  let l0 : List (Event F) := [Event.printInt "cf_start_timestamp" start_timestamp]
  match latencyTest h (net 0) with
  | (l1, false) => (l0 ++ l1, false)
  | (l1, true) =>
    match downloadTests h net s.DownloadTests 1 [] with
    | (l2, none) => (l0 ++ l1 ++ l2, false)
    | (l2, some download_results) =>
      let down_per := (h.Percentile download_results ((90 : Int) : F)).1
      let l3 : List (Event F) :=
        [Event.percentile download_results ((90 : Int) : F),
         Event.print "cf_90th_percentile_download_speed" down_per]
      match uploadTests rt h net s.UploadTests (1 + s.DownloadTests.length) [] with
      | (l4, none) => (l0 ++ l1 ++ l2 ++ l3 ++ l4, false)
      | (l4, some upload_results) =>
        let up_per := (h.Percentile upload_results ((90 : Int) : F)).1
        let l5 : List (Event F) :=
          [Event.percentile upload_results ((90 : Int) : F),
           Event.print "cf_90th_percentile_upload_speed" up_per]
        (l0 ++ l1 ++ l2 ++ l3 ++ l4 ++ l5, true)

end speedtest



namespace speedtest

/-! ## Vocabulary of the specification -/

/-- An iteration that contributes an entry: a response with status code 200. -/
def succeeded (x : Exchange) : Bool :=
  match x.resp with
  | some r => r.StatusCode == 200
  | none => false

/-- The exchanges of the first `n` iterations that succeeded, in iteration order. -/
def successes (net : Nat → Exchange) (n : Nat) : List Exchange :=
  ((List.range n).map net).filter succeeded

/-- The reading taken by the last firing of hook `e`; the zero Time when the hook
never fired. -/
def lastInstant (e : TraceEvent) (events : List (TraceEvent × Time)) : Time :=
  match (events.filter (fun p => p.1 = e)).getLast? with
  | some p => p.2
  | none => 0

/-- The reading taken by the first firing of hook `e`; the zero Time when the
hook never fired. -/
def firstInstant (e : TraceEvent) (events : List (TraceEvent × Time)) : Time :=
  match events.find? (fun p => p.1 = e) with
  | some p => p.2
  | none => 0

/-- Whether the DNS-start or the DNS-done hook fired. -/
def dnsFired (events : List (TraceEvent × Time)) : Bool :=
  events.any (fun p => p.1 = TraceEvent.DNSStart ∨ p.1 = TraceEvent.DNSDone)

/-- The start of the exchange: dnsStart, or its substitute when it is absent. -/
def Spec.start (x : Exchange) : Time :=
  if (runTrace x.events).t0 = 0 then (runTrace x.events).t1 else (runTrace x.events).t0

/-- dnsLookup = dnsEnd − dnsStart, with the substituted start when DNS was
skipped. -/
def Spec.dnsLookup (x : Exchange) : Duration :=
  Time.Sub (runTrace x.events).t1 (Spec.start x)

/-- tcpConnect = connectionHandedOver − dnsEnd (or the DNS-substitute instant). -/
def Spec.tcpConnect (x : Exchange) : Duration :=
  Time.Sub (runTrace x.events).t3 (runTrace x.events).t1

/-- serverProcessing = firstByte − connectionHandedOver. -/
def Spec.serverProcessing (x : Exchange) : Duration :=
  Time.Sub (runTrace x.events).t4 (runTrace x.events).t3

/-- total = bodyComplete − (dnsStart or its substitute). -/
def Spec.total (x : Exchange) : Duration :=
  Time.Sub x.t7 (Spec.start x)

/-- transfer of a download = bodyComplete − firstByte. -/
def Spec.downloadTransfer (x : Exchange) : Duration :=
  Time.Sub x.t7 (runTrace x.events).t4

/-- transfer of an upload = bodyComplete − connectionHandedOver. -/
def Spec.uploadTransfer (x : Exchange) : Duration :=
  Time.Sub x.t7 (runTrace x.events).t3

/-- The trial result the specification describes: one entry per successful
exchange, in order, in each of the five sequences. -/
def Spec.trialResult (transfer : Exchange → Duration) (ok : List Exchange) : Samples :=
  { fulltimes := ok.map Spec.total
    servertimes := ok.map Spec.serverProcessing
    tcptimes := ok.map Spec.tcpConnect
    dnstimes := ok.map Spec.dnsLookup
    transfertimes := ok.map transfer }

/-- The timestamps of an exchange are non-decreasing in the listed order:
dnsStart (when present), dnsEnd or its connectStart substitute,
connectionHandedOver, firstByte, bodyComplete.  An absent timestamp is the zero
Time, the earliest instant: dnsStart may be absent, and with it the second
timestamp; a present dnsStart is followed by a present second timestamp. -/
def Spec.Ordered (x : Exchange) : Prop :=
  ((runTrace x.events).t0 ≠ 0 → (runTrace x.events).t0 ≤ (runTrace x.events).t1) ∧
  (runTrace x.events).t1 ≤ (runTrace x.events).t3 ∧
  (runTrace x.events).t3 ≤ (runTrace x.events).t4 ∧
  (runTrace x.events).t4 ≤ x.t7

/-- The instants an exchange subtracts lie within one `time.Duration` of each
other (about 292 years), so that no subtraction saturates. -/
def Spec.Bounded (x : Exchange) : Prop :=
  ∃ lo : Nat, ∀ v ∈ [Spec.start x, (runTrace x.events).t1, (runTrace x.events).t3,
      (runTrace x.events).t4, x.t7], lo ≤ v ∧ (v : Int) ≤ (lo : Int) + maxDuration

/-- Entrywise concatenation of two trial results. -/
def Samples.append (a b : Samples) : Samples :=
  { fulltimes := a.fulltimes ++ b.fulltimes
    servertimes := a.servertimes ++ b.servertimes
    tcptimes := a.tcptimes ++ b.tcptimes
    dnstimes := a.dnstimes ++ b.dnstimes
    transfertimes := a.transfertimes ++ b.transfertimes }

/-! ## Concrete networks -/

/-- A network on which every `client.Do` fails at transport level. -/
def failingNet : Nat → Exchange := fun _ => ⟨[], none, 0⟩

/-- A trial of five exchanges of which the second and the fourth succeed. -/
def twoOfFive : Nat → Exchange := fun i =>
  if i = 1 ∨ i = 3 then
    ⟨[(TraceEvent.DNSStart, 1000 + i), (TraceEvent.DNSDone, 1010 + i),
      (TraceEvent.ConnectStart, 1011 + i), (TraceEvent.ConnectDone, 1020 + i),
      (TraceEvent.GotConn, 1021 + i), (TraceEvent.GotFirstResponseByte, 1050 + i)],
     some ⟨200⟩, 1100 + 10 * i⟩
  else ⟨[], some ⟨503⟩, 0⟩

/-- An exchange to a literal address: no DNS hook fires, the connection attempt
starts and is handed over at the same instant, the first byte arrives 50ms later
and the body is complete 100ms after that. -/
def literalAddress : Exchange :=
  ⟨[(TraceEvent.ConnectStart, 63000000000000000000),
    (TraceEvent.ConnectDone, 63000000000000000000),
    (TraceEvent.GotConn, 63000000000000000000),
    (TraceEvent.GotFirstResponseByte, 63000000000050000000)],
   some ⟨200⟩, 63000000000150000000⟩

end speedtest

namespace speedtest

/-! ## Vocabulary of the specification: the orchestration -/

/-- The events that start a trial or call `stats.Percentile`, as opposed to
printed lines. -/
def Event.isCall {F : Type} : Event F → Bool
  | Event.download _ _ => true
  | Event.upload _ _ => true
  | Event.percentile _ _ => true
  | Event.printInt _ _ => false
  | Event.print _ _ => false

/-- The trials and percentile calls of a run, in the order in which they happen. -/
def calls {F : Type} (log : List (Event F)) : List (Event F) :=
  log.filter Event.isCall

/-! ## Concrete runs -/

/-- A run-time that allocates up to `2^48` bytes in one piece, the limit of the
64-bit platforms. -/
def runtime64 : Runtime :=
  { makeBytes := fun n => decide (n ≤ 2 ^ 48)
    encodeBytes := fun n => decide (3 * n + 5 ≤ 2 ^ 48) }

/-- Uninterpreted `float64` expressions: every operation and every call of a
function of `Helpers` is kept as written, so that a printed value shows how it
was computed. -/
inductive Sym where
  | ofInt (n : Int)
  | div (a b : Sym)
  | correctedDeviation (xs : List Duration)
  | averageDuration (xs : List Duration)
  | averageDurationSeconds (xs : List Duration)
  | percentile (input : List Sym) (percent : Sym)

instance : Div Sym := ⟨Sym.div⟩

instance : IntCast Sym := ⟨Sym.ofInt⟩

/-- Modelled from the spec: the error result of `stats.Percentile`, whose source
is not part of the development, for a percentile argument within bounds.  It
fails with EmptyInput when the samples are empty. -/
def Spec.percentileError {F : Type} (input : List F) : Option stats.statsError :=
  if input.length = 0 then some stats.EmptyInputErr else none

/-- The helper functions left uninterpreted: each returns, on every input, the
expression that names its call. -/
def symbolic : Helpers Sym :=
  { CalculateCorrectedDeviation := fun xs => some (Sym.correctedDeviation xs)
    CalculateAverageDuration := fun xs => some (Sym.averageDuration xs)
    CalculateAverageDurationSeconds := fun xs => some (Sym.averageDurationSeconds xs)
    Percentile := fun input percent =>
      (Sym.percentile input percent, Spec.percentileError input) }

/-- A network on which every exchange is answered with status 500. -/
def rejectingNet : Nat → Nat → Exchange := fun _ _ => ⟨[], some ⟨500⟩, 0⟩

/-- A configuration with one download test of one iteration and no upload test. -/
def oneDownload : Speedtest :=
  { UploadTests := []
    DownloadTests := [⟨101000, 1, "100kB"⟩] }

/-- A network on which every exchange is `literalAddress`. -/
def steadyNet : Nat → Nat → Exchange := fun _ _ => literalAddress

/-- A configuration with one download test and one upload test. -/
def oneEach : Speedtest :=
  { UploadTests := [⟨101000, 2, "100kB"⟩]
    DownloadTests := [⟨101000, 1, "100kB"⟩] }

/-- A configuration without download and upload tests. -/
def noTests : Speedtest :=
  { UploadTests := []
    DownloadTests := [] }

/-- A configuration whose first upload test has a payload of `2^60` bytes. -/
def hugeUpload : Speedtest :=
  { UploadTests := [⟨2 ^ 60, 1, "1EB"⟩, ⟨101000, 1, "100kB"⟩]
    DownloadTests := [] }

end speedtest


namespace stats

/-! ## Slices of float64 and their sorted copies -/

/-- A `float64` by its value: not-a-number, or a number of a linearly ordered
type `α` (the finite values and the infinities).  The two zeros, equal as
numbers, are one value, and so are the not-a-number values. -/
inductive float64 (α : Type) where
  | NaN
  | num (x : α)
  deriving DecidableEq, Repr

/-- The test `x != x` of package `sort`: whether the value is not-a-number. -/
def float64.isNaN {α : Type} : float64 α → Bool
  | float64.NaN => true
  | float64.num _ => false

/-- The comparison `x < y` of two `float64`: false when either is
not-a-number. -/
def float64.lt {α : Type} [LinearOrder α] : float64 α → float64 α → Bool
  | float64.num x, float64.num y => decide (x < y)
  | _, _ => false

/-- The method `Float64Slice.Less` of package `sort`, on the two elements it
compares: `x[i] < x[j] || (isNaN(x[i]) && !isNaN(x[j]))`. -/
def Less {α : Type} [LinearOrder α] (a b : float64 α) : Bool :=
  float64.lt a b || (float64.isNaN a && !float64.isNaN b)

/-- The inner loop `for j := i; j > a && Less(j, j-1); j-- { Swap(j, j-1) }` of
the insertion sort of package `sort`: the element `x` moves left past every
element it is less than.  The sorted part before `x` is given last element
first, and so is the result. -/
def insertLeft {α : Type} [LinearOrder α] (x : float64 α) : List (float64 α) → List (float64 α)
  | [] => [x]
  | y :: before => if Less x y then y :: insertLeft x before else x :: y :: before

/-- The arrangement `sort.Float64s` leaves in a slice holding `data`.  The
function belongs to Go's standard library; the model is its insertion sort,
`for i := a + 1; i < b; i++` around the inner loop, which it runs on slices of
at most 12 elements. -/
def sortFloat64s {α : Type} [LinearOrder α] (data : List (float64 α)) : List (float64 α) :=
  (data.foldl (fun sorted x => insertLeft x sorted) []).reverse

/-- The function `sort.Float64sAreSorted` on the elements of a slice: no element
is less than the one before it. -/
def Float64sAreSorted {α : Type} [LinearOrder α] : List (float64 α) → Bool
  | [] => true
  | [_] => true
  | a :: b :: rest => !Less b a && Float64sAreSorted (b :: rest)

/-- A slice header: the address of its backing array, the offset of its first
element in it, and its length. -/
structure Slice where
  array : Nat
  off : Nat
  len : Nat
  deriving DecidableEq, Repr

/-- The memory: the backing arrays by address; the addresses below `next` are
allocated. -/
structure Memory (α : Type) where
  arrays : Nat → List (float64 α)
  next : Nat

/-- The elements of a slice. -/
def Memory.load {α : Type} (m : Memory α) (s : Slice) : List (float64 α) :=
  ((m.arrays s.array).drop s.off).take s.len

/-- Writing `xs` over the elements of the backing array of `s` that start at the
first element of `s`. -/
def Memory.store {α : Type} (m : Memory α) (s : Slice) (xs : List (float64 α)) : Memory α :=
  { m with
    arrays := Function.update m.arrays s.array
      ((m.arrays s.array).take s.off ++ xs ++ (m.arrays s.array).drop (s.off + xs.length)) }

/-- A slice lies within an allocated backing array. -/
def Slice.Valid {α : Type} (m : Memory α) (s : Slice) : Prop :=
  s.array < m.next ∧ s.off + s.len ≤ (m.arrays s.array).length

/-- The built-in `make([]float64, n)`: a fresh backing array of `n` zeros. -/
def make {α : Type} [Zero α] (m : Memory α) (n : Nat) : Memory α × Slice :=
  ({ arrays := Function.update m.arrays m.next (List.replicate n (float64.num 0))
     next := m.next + 1 },
   ⟨m.next, 0, n⟩)

/-- The built-in `copy(dst, src)`: copies as many elements as the shorter slice
holds. -/
def copy {α : Type} (m : Memory α) (dst src : Slice) : Memory α :=
  m.store dst ((m.load src).take (min dst.len src.len))

/-- The function `copyslice` of `stats/utils.go`. -/
def copyslice {α : Type} [Zero α] (m : Memory α) (input : Slice) : Memory α × Slice :=
  let r := make m input.len
  (copy r.1 r.2 input, r.2)

/-- The function `sort.Float64s`: sorts the slice in place. -/
def Float64s {α : Type} [LinearOrder α] (m : Memory α) (x : Slice) : Memory α :=
  m.store x (sortFloat64s (m.load x))

/-- The function `sortedCopy` of `stats/utils.go`. -/
def sortedCopy {α : Type} [LinearOrder α] [Zero α] (m : Memory α) (input : Slice) :
    Memory α × Slice :=
  let r := copyslice m input
  (Float64s r.1 r.2, r.2)

/-- The function `sortedCopyDif` of `stats/utils.go`. -/
def sortedCopyDif {α : Type} [LinearOrder α] [Zero α] (m : Memory α) (input : Slice) :
    Memory α × Slice :=
  if Float64sAreSorted (m.load input) then (m, input)
  else
    let r := copyslice m input
    (Float64s r.1 r.2, r.2)

/-- A memory with one backing array, holding 3, not-a-number, 1, 2, 1. -/
def oneArray : Memory Int :=
  { arrays := fun a =>
      if a = 0 then
        [float64.num 3, float64.NaN, float64.num 1, float64.num 2, float64.num 1]
      else []
    next := 1 }

/-- A memory with one backing array, holding 1, 1, 2, not-a-number, 3. -/
def otherArray : Memory Int :=
  { arrays := fun a =>
      if a = 0 then
        [float64.num 1, float64.num 1, float64.num 2, float64.NaN, float64.num 3]
      else []
    next := 1 }

end stats

namespace speedtest

/-! ## The ordering of header names -/

/-- The type `headers`. -/
abbrev headers := List String

/-- The closure `endtoend` of `headers.Less`: false for the hop-by-hop header
names. -/
def endtoend (n : String) : Bool :=
  if n = "Connection" ∨ n = "Keep-Alive" ∨ n = "Proxy-Authenticate"
      ∨ n = "Proxy-Authorization" ∨ n = "TE" ∨ n = "Trailers" ∨ n = "Transfer-Encoding"
      ∨ n = "Upgrade" then false
  else true

/-- The method `headers.Less`; `none` is the panic of an index out of range. -/
def headers.Less (h : headers) (i j : Nat) : Option Bool :=
  match h[i]?, h[j]? with
  | some a, some b =>
    if a = "Server" then some true
    else if b = "Server" then some false
    else
      let x := endtoend a
      let y := endtoend b
      if x = y then some (decide (a < b))
      else some x
  | _, _ => none

end speedtest

/-! # Theorems -/

namespace speedtest

/-! ## Subtraction of instants -/

theorem Time.Sub_exact (t u : Time) (h1 : minDuration ≤ (t : Int) - u)
    (h2 : (t : Int) - u ≤ maxDuration) : Time.Sub t u = (t : Int) - u := by
  unfold Time.Sub
  simp only []
  rw [if_neg (not_lt.mpr h1), if_neg (not_lt.mpr h2)]

theorem Time.Sub_self (t : Time) : Time.Sub t t = 0 := by
  simp [Time.Sub, minDuration, maxDuration]

theorem Time.Sub_nonneg (t u : Time) (h : u ≤ t) : 0 ≤ Time.Sub t u := by
  have h' : (u : Int) ≤ (t : Int) := Int.ofNat_le.mpr h
  show (0 : Int) ≤ Time.Sub t u
  unfold Time.Sub minDuration maxDuration
  simp only []
  split_ifs <;> omega

/-! ## The timestamp variables and the hooks -/

theorem runTrace_append (evs : List (TraceEvent × Time)) (p : TraceEvent × Time) :
    runTrace (evs ++ [p]) = ClientTrace.fire (runTrace evs) p.1 p.2 := by
  simp [runTrace, List.foldl_append]

theorem lastInstant_append (e : TraceEvent) (evs : List (TraceEvent × Time))
    (p : TraceEvent × Time) :
    lastInstant e (evs ++ [p]) = if p.1 = e then p.2 else lastInstant e evs := by
  unfold lastInstant
  by_cases h : p.1 = e
  · simp [List.filter_append, h]
  · simp [List.filter_append, h]

theorem runTrace_t0 (evs : List (TraceEvent × Time)) :
    (runTrace evs).t0 = lastInstant TraceEvent.DNSStart evs := by
  induction evs using List.reverseRecOn with
  | nil => rfl
  | append_singleton evs p ih =>
    rw [runTrace_append, lastInstant_append]
    obtain ⟨e, now⟩ := p
    cases e <;> simp [ClientTrace.fire, ih]
    split_ifs <;> simp [ih]

theorem runTrace_t3 (evs : List (TraceEvent × Time)) :
    (runTrace evs).t3 = lastInstant TraceEvent.GotConn evs := by
  induction evs using List.reverseRecOn with
  | nil => rfl
  | append_singleton evs p ih =>
    rw [runTrace_append, lastInstant_append]
    obtain ⟨e, now⟩ := p
    cases e <;> simp [ClientTrace.fire, ih]
    split_ifs <;> simp [ih]

theorem runTrace_t4 (evs : List (TraceEvent × Time)) :
    (runTrace evs).t4 = lastInstant TraceEvent.GotFirstResponseByte evs := by
  induction evs using List.reverseRecOn with
  | nil => rfl
  | append_singleton evs p ih =>
    rw [runTrace_append, lastInstant_append]
    obtain ⟨e, now⟩ := p
    cases e <;> simp [ClientTrace.fire, ih]
    split_ifs <;> simp [ih]

/-! ## One iteration -/

theorem downloadIteration_succeeded (scheme : String) (hs : scheme = "http" ∨ scheme = "https")
    (x : Exchange) (acc : Samples) (r : Response) (hr : x.resp = some r)
    (h200 : r.StatusCode = 200) :
    downloadIteration scheme x acc
      = some (acc.append (Spec.trialResult Spec.downloadTransfer [x])) := by
  unfold downloadIteration
  rw [hr]
  rcases hs with rfl | rfl <;>
    simp [h200, Samples.append, Spec.trialResult, Spec.total, Spec.serverProcessing,
      Spec.tcpConnect, Spec.dnsLookup, Spec.downloadTransfer, Spec.start, Time.IsZero]

theorem uploadIteration_succeeded (scheme : String) (hs : scheme = "http" ∨ scheme = "https")
    (x : Exchange) (acc : Samples) (r : Response) (hr : x.resp = some r)
    (h200 : r.StatusCode = 200) :
    uploadIteration scheme x acc
      = some (acc.append (Spec.trialResult Spec.uploadTransfer [x])) := by
  unfold uploadIteration
  rw [hr]
  rcases hs with rfl | rfl <;>
    simp [h200, Samples.append, Spec.trialResult, Spec.total, Spec.serverProcessing,
      Spec.tcpConnect, Spec.dnsLookup, Spec.uploadTransfer, Spec.start, Time.IsZero]

theorem downloadIteration_responded (scheme : String) (hs : scheme = "http" ∨ scheme = "https")
    (x : Exchange) (acc : Samples) (hr : x.resp ≠ none) :
    downloadIteration scheme x acc
      = some (if succeeded x then acc.append (Spec.trialResult Spec.downloadTransfer [x])
              else acc) := by
  cases hx : x.resp with
  | none => exact absurd hx hr
  | some r =>
    by_cases h200 : r.StatusCode = 200
    · rw [downloadIteration_succeeded scheme hs x acc r hx h200]
      simp [succeeded, hx, h200]
    · simp [downloadIteration, succeeded, hx, h200]

theorem uploadIteration_responded (scheme : String) (hs : scheme = "http" ∨ scheme = "https")
    (x : Exchange) (acc : Samples) (hr : x.resp ≠ none) :
    uploadIteration scheme x acc
      = some (if succeeded x then acc.append (Spec.trialResult Spec.uploadTransfer [x])
              else acc) := by
  cases hx : x.resp with
  | none => exact absurd hx hr
  | some r =>
    by_cases h200 : r.StatusCode = 200
    · rw [uploadIteration_succeeded scheme hs x acc r hx h200]
      simp [succeeded, hx, h200]
    · simp [uploadIteration, succeeded, hx, h200]

/-! ## The trial loop -/

theorem Samples.append_empty (a : Samples) : a.append (Spec.trialResult f []) = a := by
  simp [Samples.append, Spec.trialResult]

theorem Samples.empty_append (a : Samples) : Samples.empty.append a = a := by
  simp [Samples.append, Samples.empty]

theorem Samples.append_trialResult (a : Samples) (f : Exchange → Duration) (x : Exchange)
    (xs : List Exchange) :
    (a.append (Spec.trialResult f [x])).append (Spec.trialResult f xs)
      = a.append (Spec.trialResult f (x :: xs)) := by
  simp [Samples.append, Spec.trialResult]

theorem forLoop_collect (body : Nat → Samples → Option Samples) (net : Nat → Exchange)
    (f : Exchange → Duration) (n : Nat) :
    ∀ (i : Nat) (acc : Samples),
      (∀ j a, i ≤ j → j < i + n →
        body j a = some (if succeeded (net j) then a.append (Spec.trialResult f [net j])
                         else a)) →
      forLoop body i n acc
        = some (acc.append
            (Spec.trialResult f (((List.range' i n).map net).filter succeeded))) := by
  induction n with
  | zero =>
    intro i acc _
    simp [forLoop, Samples.append_empty]
  | succ n ih =>
    intro i acc h
    have hi := h i acc (Nat.le_refl i) (by omega)
    have hrest := ih (i + 1)
      (if succeeded (net i) then acc.append (Spec.trialResult f [net i]) else acc)
      (fun j a h1 h2 => h j a (by omega) (by omega))
    simp only [forLoop, hi, hrest, List.range'_succ, List.map_cons, List.filter_cons]
    by_cases hs : succeeded (net i) = true
    · simp [hs, Samples.append_trialResult]
    · simp [hs]

theorem Download_responded (net : Nat → Exchange) (numbytes iterations : Int)
    (hresp : ∀ i, i < iterations.toNat → (net i).resp ≠ none) :
    Download net numbytes iterations
      = some (Spec.trialResult Spec.downloadTransfer (successes net iterations.toNat)) := by
  unfold Download
  rw [forLoop_collect _ net Spec.downloadTransfer iterations.toNat 0 Samples.empty]
  · simp [Samples.empty_append, successes, List.range_eq_range']
  · intro j a _ hj
    exact downloadIteration_responded _ (Or.inl rfl) _ _ (hresp j (by omega))

theorem Upload_responded (rt : Runtime) (net : Nat → Exchange) (numbytes iterations : Int)
    (hbytes : 0 ≤ numbytes) (hmake : rt.makeBytes numbytes = true)
    (henc : 0 < iterations → rt.encodeBytes numbytes = true)
    (hresp : ∀ i, i < iterations.toNat → (net i).resp ≠ none) :
    Upload rt net numbytes iterations
      = some (Spec.trialResult Spec.uploadTransfer (successes net iterations.toNat)) := by
  unfold Upload
  rw [if_neg (by simp [hmake, not_lt.mpr hbytes]),
    forLoop_collect _ net Spec.uploadTransfer iterations.toNat 0 Samples.empty]
  · simp [Samples.empty_append, successes, List.range_eq_range']
  · intro j a _ hj
    have hpos : 0 < iterations := by omega
    rw [if_pos (henc hpos)]
    exact uploadIteration_responded _ (Or.inl rfl) _ _ (hresp j (by omega))

theorem forLoop_panics_later {σ : Type} (body : Nat → σ → Option σ) (j : Nat)
    (hb : ∀ s, body j s = none) (n : Nat) :
    ∀ (i : Nat) (s : σ), i ≤ j → j < i + n → forLoop body i n s = none := by
  induction n with
  | zero => intro i s h1 h2; omega
  | succ n ih =>
    intro i s h1 h2
    unfold forLoop
    by_cases hij : i = j
    · subst hij
      rw [hb s]
    · cases hbody : body i s with
      | none => rfl
      | some s' => exact ih (i + 1) s' (by omega) (by omega)

/-- A trial of `Download` that returns has had a response in every iteration, and
its result is the one of `Spec.trialResult`. -/
theorem Download_returns (net : Nat → Exchange) (numbytes iterations : Int) (r : Samples)
    (h : Download net numbytes iterations = some r) :
    (∀ i, i < iterations.toNat → (net i).resp ≠ none) ∧
    r = Spec.trialResult Spec.downloadTransfer (successes net iterations.toNat) := by
  have hresp : ∀ i, i < iterations.toNat → (net i).resp ≠ none := by
    intro i hi hnone
    have hpanic : Download net numbytes iterations = none :=
      forLoop_panics_later _ i (fun s => by simp [downloadIteration, hnone]) _ 0 _
        (Nat.zero_le i) (by omega)
    rw [hpanic] at h
    cases h
  refine ⟨hresp, ?_⟩
  rw [Download_responded net numbytes iterations hresp] at h
  exact (Option.some.inj h).symm

/-- A trial of `Upload` that returns has allocated its payload and has had a
response in every iteration, and its result is the one of `Spec.trialResult`. -/
theorem Upload_returns (rt : Runtime) (net : Nat → Exchange) (numbytes iterations : Int)
    (r : Samples) (h : Upload rt net numbytes iterations = some r) :
    0 ≤ numbytes ∧ rt.makeBytes numbytes = true ∧
    (0 < iterations → rt.encodeBytes numbytes = true) ∧
    (∀ i, i < iterations.toNat → (net i).resp ≠ none) ∧
    r = Spec.trialResult Spec.uploadTransfer (successes net iterations.toNat) := by
  have hguard : ¬(numbytes < 0 ∨ rt.makeBytes numbytes = false) := by
    intro hg
    simp [Upload, hg] at h
  have hbytes : 0 ≤ numbytes := by
    by_contra hneg
    exact hguard (Or.inl (by omega))
  have hmake : rt.makeBytes numbytes = true := by
    cases hm : rt.makeBytes numbytes with
    | true => rfl
    | false => exact absurd (Or.inr hm) hguard
  have hloop : forLoop (fun i acc =>
      if rt.encodeBytes numbytes then uploadIteration upload_url_scheme (net i) acc
      else none) 0 iterations.toNat Samples.empty = some r := by
    simpa [Upload, hguard] using h
  have henc : 0 < iterations → rt.encodeBytes numbytes = true := by
    intro hpos
    cases he : rt.encodeBytes numbytes with
    | true => rfl
    | false =>
      have hpanic := forLoop_panics_later (fun i acc =>
        if rt.encodeBytes numbytes then uploadIteration upload_url_scheme (net i) acc
        else none) 0 (fun s => by simp [he]) iterations.toNat 0 Samples.empty
        (Nat.le_refl 0) (by omega)
      rw [hpanic] at hloop
      cases hloop
  have hresp : ∀ i, i < iterations.toNat → (net i).resp ≠ none := by
    intro i hi hnone
    have hpanic := forLoop_panics_later (fun i acc =>
      if rt.encodeBytes numbytes then uploadIteration upload_url_scheme (net i) acc
      else none) i (fun s => by simp [uploadIteration, hnone]) iterations.toNat 0
      Samples.empty (Nat.zero_le i) (by omega)
    rw [hpanic] at hloop
    cases hloop
  refine ⟨hbytes, hmake, henc, hresp, ?_⟩
  rw [Upload_responded rt net numbytes iterations hbytes hmake henc hresp] at h
  exact (Option.some.inj h).symm

theorem successes_length_le (net : Nat → Exchange) (n : Nat) : (successes net n).length ≤ n := by
  unfold successes
  calc (List.filter succeeded ((List.range n).map net)).length
      ≤ ((List.range n).map net).length := List.length_filter_le _ _
    _ = n := by simp

/-! ## Transport failures -/

theorem forLoop_panics_at_once {σ : Type} (body : Nat → σ → Option σ) (i n : Nat) (s : σ)
    (hn : 0 < n) (hb : body i s = none) : forLoop body i n s = none := by
  cases n with
  | zero => omega
  | succ n => simp [forLoop, hb]

/-- Whenever the first exchange of a trial with at least one iteration fails at
transport level, `Download` panics, and so does `Upload`. -/
theorem trial_panics_on_transport_failure (rt : Runtime) (net : Nat → Exchange)
    (numbytes iterations : Int) (hit : 0 < iterations) (hfail : (net 0).resp = none) :
    Download net numbytes iterations = none ∧ Upload rt net numbytes iterations = none := by
  have hn : 0 < iterations.toNat := by omega
  constructor
  · exact forLoop_panics_at_once _ 0 _ _ hn (by simp [downloadIteration, hfail])
  · unfold Upload
    split
    · rfl
    · exact forLoop_panics_at_once _ 0 _ _ hn (by simp [uploadIteration, hfail])

/-- C1, the code as written: with a single iteration whose `client.Do` fails at
transport level, `Download(0, 1)` and `Upload(0, 1)`, on every run-time,
dereference the nil response and panic; neither returns normally with five empty
sequences. -/
theorem C1_transport_failure_panics :
    Download failingNet 0 1 = none ∧ ∀ rt : Runtime, Upload rt failingNet 0 1 = none := by
  refine ⟨by decide, fun rt => ?_⟩
  unfold Upload
  split
  · rfl
  · exact forLoop_panics_at_once _ 0 _ _ (by decide) (by simp [uploadIteration, failingNet])

/-! ## Shape of a trial result -/

/-- C2: when each of the `iterations` exchanges returns a response, `Download`
returns, its five sequences hold one entry per exchange with status code 200, in
iteration order, so that all five have the same length, the number of such
exchanges, which is at most `iterations`; the same holds for `Upload` whenever
its exchanges take place, that is, the payload size is non-negative and the
run-time allocates the payload and, in a trial with an iteration, its encoded
form. -/
theorem C2_one_entry_per_success (net : Nat → Exchange) (numbytes iterations : Int)
    (hresp : ∀ i, i < iterations.toNat → (net i).resp ≠ none) :
    (∃ d : Samples, Download net numbytes iterations = some d ∧
      d.fulltimes = (successes net iterations.toNat).map Spec.total ∧
      d.servertimes = (successes net iterations.toNat).map Spec.serverProcessing ∧
      d.tcptimes = (successes net iterations.toNat).map Spec.tcpConnect ∧
      d.dnstimes = (successes net iterations.toNat).map Spec.dnsLookup ∧
      d.transfertimes = (successes net iterations.toNat).map Spec.downloadTransfer ∧
      d.fulltimes.length = (successes net iterations.toNat).length ∧
      d.servertimes.length = (successes net iterations.toNat).length ∧
      d.tcptimes.length = (successes net iterations.toNat).length ∧
      d.dnstimes.length = (successes net iterations.toNat).length ∧
      d.transfertimes.length = (successes net iterations.toNat).length) ∧
    (∀ rt : Runtime, 0 ≤ numbytes → rt.makeBytes numbytes = true →
      (0 < iterations → rt.encodeBytes numbytes = true) →
      ∃ u : Samples, Upload rt net numbytes iterations = some u ∧
      u.fulltimes = (successes net iterations.toNat).map Spec.total ∧
      u.servertimes = (successes net iterations.toNat).map Spec.serverProcessing ∧
      u.tcptimes = (successes net iterations.toNat).map Spec.tcpConnect ∧
      u.dnstimes = (successes net iterations.toNat).map Spec.dnsLookup ∧
      u.transfertimes = (successes net iterations.toNat).map Spec.uploadTransfer ∧
      u.fulltimes.length = (successes net iterations.toNat).length ∧
      u.servertimes.length = (successes net iterations.toNat).length ∧
      u.tcptimes.length = (successes net iterations.toNat).length ∧
      u.dnstimes.length = (successes net iterations.toNat).length ∧
      u.transfertimes.length = (successes net iterations.toNat).length) ∧
    (successes net iterations.toNat).length
      = (List.range iterations.toNat).countP (fun i => succeeded (net i)) ∧
    (successes net iterations.toNat).length ≤ iterations.toNat := by
  refine ⟨⟨_, Download_responded net numbytes iterations hresp, ?_⟩,
    fun rt hbytes hmake henc =>
      ⟨_, Upload_responded rt net numbytes iterations hbytes hmake henc hresp, ?_⟩, ?_,
    successes_length_le net _⟩
  · simp [Spec.trialResult]
  · simp [Spec.trialResult]
  · simp [successes, List.countP_eq_length_filter, List.filter_map, Function.comp_def]

/-- C2 at a trial of five exchanges of which three are answered with status 503:
the sequences have length exactly 2. -/
theorem C2_one_entry_per_success_witness :
    (∀ i, i < (5 : Int).toNat → (twoOfFive i).resp ≠ none) ∧
    (∃ d : Samples, Download twoOfFive 101000 5 = some d ∧ d.fulltimes.length = 2 ∧
      d.servertimes.length = 2 ∧ d.tcptimes.length = 2 ∧ d.dnstimes.length = 2 ∧
      d.transfertimes.length = 2) ∧
    (∃ u : Samples, Upload runtime64 twoOfFive 101000 5 = some u ∧ u.fulltimes.length = 2 ∧
      u.servertimes.length = 2 ∧ u.tcptimes.length = 2 ∧ u.dnstimes.length = 2 ∧
      u.transfertimes.length = 2) := by
  have hresp : ∀ i, i < (5 : Int).toNat → (twoOfFive i).resp ≠ none := by
    intro i _
    unfold twoOfFive
    split <;> simp
  have hlen : (successes twoOfFive (5 : Int).toNat).length = 2 := by decide
  obtain ⟨⟨d, hd, _, _, _, _, _, h1, h2, h3, h4, h5⟩, hup, _⟩ :=
    C2_one_entry_per_success twoOfFive 101000 5 hresp
  obtain ⟨u, hu, _, _, _, _, _, g1, g2, g3, g4, g5⟩ :=
    hup runtime64 (by decide) (by decide) (fun _ => by decide)
  exact ⟨hresp, ⟨d, hd, h1.trans hlen, h2.trans hlen, h3.trans hlen, h4.trans hlen,
    h5.trans hlen⟩, u, hu, g1.trans hlen, g2.trans hlen, g3.trans hlen, g4.trans hlen,
    g5.trans hlen⟩

/-! ## The transfer interval -/

/-- C3: for an exchange with status code 200, in the http and in the https
branch, `Download` records as transfer duration bodyComplete minus firstByte
(`t7.Sub(t4)`, `t4` being the reading of the first-response-byte hook) and
`Upload` records bodyComplete minus connectionHandedOver (`t7.Sub(t3)`, `t3`
being the reading of the got-connection hook); `Sub` is the exact difference
whenever that difference is a `time.Duration`. -/
theorem C3_transfer_interval (scheme : String) (hs : scheme = "http" ∨ scheme = "https")
    (x : Exchange) (acc : Samples) (r : Response) (hr : x.resp = some r)
    (h200 : r.StatusCode = 200) :
    (∃ d : Samples, downloadIteration scheme x acc = some d ∧
      d.transfertimes = acc.transfertimes ++
        [Time.Sub x.t7 (lastInstant TraceEvent.GotFirstResponseByte x.events)]) ∧
    (∃ u : Samples, uploadIteration scheme x acc = some u ∧
      u.transfertimes = acc.transfertimes ++
        [Time.Sub x.t7 (lastInstant TraceEvent.GotConn x.events)]) ∧
    (∀ t u : Time, minDuration ≤ (t : Int) - u → (t : Int) - u ≤ maxDuration →
      Time.Sub t u = (t : Int) - u) := by
  refine ⟨⟨_, downloadIteration_succeeded scheme hs x acc r hr h200, ?_⟩,
    ⟨_, uploadIteration_succeeded scheme hs x acc r hr h200, ?_⟩, Time.Sub_exact⟩
  · simp [Samples.append, Spec.trialResult, Spec.downloadTransfer, runTrace_t4]
  · simp [Samples.append, Spec.trialResult, Spec.uploadTransfer, runTrace_t3]

/-- C3 at the exchange `literalAddress` in the http branch. -/
theorem C3_transfer_interval_witness :
    (∃ d : Samples, downloadIteration "http" literalAddress Samples.empty = some d ∧
      d.transfertimes = [100000000]) ∧
    (∃ u : Samples, uploadIteration "http" literalAddress Samples.empty = some u ∧
      u.transfertimes = [150000000]) := by
  obtain ⟨⟨d, hd, hdt⟩, ⟨u, hu, hut⟩, _⟩ :=
    C3_transfer_interval "http" (Or.inl rfl) literalAddress Samples.empty ⟨200⟩ rfl rfl
  refine ⟨⟨d, hd, hdt.trans ?_⟩, ⟨u, hu, hut.trans ?_⟩⟩
  · decide
  · decide

/-! ## Exchanges without DNS resolution -/

theorem lastInstant_of_not_fired (e : TraceEvent) (evs : List (TraceEvent × Time))
    (h : ∀ p ∈ evs, p.1 ≠ e) : lastInstant e evs = 0 := by
  have hf : evs.filter (fun p => decide (p.1 = e)) = [] := by
    rw [List.filter_eq_nil_iff]
    intro p hp
    simpa using h p hp
  simp [lastInstant, hf]

theorem dnsFired_false (evs : List (TraceEvent × Time)) (h : dnsFired evs = false) :
    ∀ p ∈ evs, p.1 ≠ TraceEvent.DNSStart ∧ p.1 ≠ TraceEvent.DNSDone := by
  intro p hp
  unfold dnsFired at h
  rw [List.any_eq_false] at h
  have := h p hp
  simpa using this

theorem foldl_fire_t1_keep (evs : List (TraceEvent × Time)) :
    ∀ c : Clock, c.t1 ≠ 0 → (∀ p ∈ evs, p.1 ≠ TraceEvent.DNSDone) →
      (evs.foldl (fun c e => ClientTrace.fire c e.1 e.2) c).t1 = c.t1 := by
  induction evs with
  | nil => intro c _ _; rfl
  | cons p rest ih =>
    intro c hc hno
    obtain ⟨e, now⟩ := p
    have hrest : ∀ q ∈ rest, q.1 ≠ TraceEvent.DNSDone :=
      fun q hq => hno q (List.mem_cons_of_mem _ hq)
    have he : e ≠ TraceEvent.DNSDone := hno (e, now) (List.mem_cons_self _ _)
    have hstep : (ClientTrace.fire c e now).t1 = c.t1 := by
      cases e <;> simp_all [ClientTrace.fire, Time.IsZero]
    rw [List.foldl_cons, ih _ (by rw [hstep]; exact hc) hrest, hstep]

theorem foldl_fire_t1_first (evs : List (TraceEvent × Time)) :
    ∀ c : Clock, c.t1 = 0 → (∀ p ∈ evs, p.1 ≠ TraceEvent.DNSDone) →
      (∀ p ∈ evs, p.1 = TraceEvent.ConnectStart → p.2 ≠ 0) →
      (evs.foldl (fun c e => ClientTrace.fire c e.1 e.2) c).t1
        = firstInstant TraceEvent.ConnectStart evs := by
  induction evs with
  | nil => intro c hc _ _; simpa [firstInstant] using hc
  | cons p rest ih =>
    intro c hc hno hnow
    obtain ⟨e, now⟩ := p
    have hrest : ∀ q ∈ rest, q.1 ≠ TraceEvent.DNSDone :=
      fun q hq => hno q (List.mem_cons_of_mem _ hq)
    have hnow' : ∀ q ∈ rest, q.1 = TraceEvent.ConnectStart → q.2 ≠ 0 :=
      fun q hq => hnow q (List.mem_cons_of_mem _ hq)
    have he : e ≠ TraceEvent.DNSDone := hno (e, now) (List.mem_cons_self _ _)
    by_cases hcs : e = TraceEvent.ConnectStart
    · subst hcs
      have h0 : now ≠ 0 := hnow (TraceEvent.ConnectStart, now) (List.mem_cons_self _ _) rfl
      have hstep : (ClientTrace.fire c TraceEvent.ConnectStart now).t1 = now := by
        simp [ClientTrace.fire, Time.IsZero, hc]
      rw [List.foldl_cons, foldl_fire_t1_keep rest _ (by rw [hstep]; exact h0) hrest, hstep]
      simp [firstInstant]
    · have hstep : (ClientTrace.fire c e now).t1 = 0 := by
        cases e <;> simp_all [ClientTrace.fire]
      rw [List.foldl_cons, ih _ hstep hrest hnow']
      simp [firstInstant, List.find?_cons, hcs]

theorem runTrace_dns_skipped (evs : List (TraceEvent × Time)) (h : dnsFired evs = false) :
    (runTrace evs).t0 = 0 := by
  rw [runTrace_t0]
  exact lastInstant_of_not_fired _ _ (fun p hp => (dnsFired_false evs h p hp).1)

theorem dnsLookup_dns_skipped (x : Exchange) (h : dnsFired x.events = false) :
    Spec.dnsLookup x = 0 := by
  simp [Spec.dnsLookup, Spec.start, runTrace_dns_skipped x.events h, Time.Sub_self]

/-- C4: in an exchange with status code 200 in which neither the DNS-start nor
the DNS-done hook fires, the recorded dnsLookup duration is exactly 0 and, the
reading `c` of the first connection-attempt-start hook standing for both DNS
instants, the recorded tcpConnect duration is connectionHandedOver minus `c` and
the recorded total is bodyComplete minus `c`; hence a trial in which DNS is
skipped in every iteration returns a dnsLookup sequence of zeros (a trial of
`Upload` returns when the run-time allocates its payload). -/
theorem C4_dns_skipped (scheme : String) (hs : scheme = "http" ∨ scheme = "https")
    (x : Exchange) (acc : Samples) (r : Response) (hr : x.resp = some r)
    (h200 : r.StatusCode = 200) (hdns : dnsFired x.events = false) :
    (∃ d u : Samples, downloadIteration scheme x acc = some d ∧
      uploadIteration scheme x acc = some u ∧
      d.dnstimes = acc.dnstimes ++ [0] ∧ u.dnstimes = acc.dnstimes ++ [0] ∧
      ((∀ p ∈ x.events, p.1 = TraceEvent.ConnectStart → p.2 ≠ 0) →
        d.tcptimes = acc.tcptimes ++ [Time.Sub (lastInstant TraceEvent.GotConn x.events)
          (firstInstant TraceEvent.ConnectStart x.events)] ∧
        u.tcptimes = acc.tcptimes ++ [Time.Sub (lastInstant TraceEvent.GotConn x.events)
          (firstInstant TraceEvent.ConnectStart x.events)] ∧
        d.fulltimes = acc.fulltimes ++
          [Time.Sub x.t7 (firstInstant TraceEvent.ConnectStart x.events)] ∧
        u.fulltimes = acc.fulltimes ++
          [Time.Sub x.t7 (firstInstant TraceEvent.ConnectStart x.events)])) ∧
    (∀ (net : Nat → Exchange) (numbytes iterations : Int),
      (∀ i, i < iterations.toNat →
        (net i).resp ≠ none ∧ dnsFired (net i).events = false) →
      (∃ d : Samples, Download net numbytes iterations = some d ∧ ∀ t ∈ d.dnstimes, t = 0) ∧
      (∀ rt : Runtime, 0 ≤ numbytes → rt.makeBytes numbytes = true →
        (0 < iterations → rt.encodeBytes numbytes = true) →
        ∃ u : Samples, Upload rt net numbytes iterations = some u ∧
          ∀ t ∈ u.dnstimes, t = 0)) := by
  have ht0 := runTrace_dns_skipped x.events hdns
  refine ⟨⟨_, _, downloadIteration_succeeded scheme hs x acc r hr h200,
    uploadIteration_succeeded scheme hs x acc r hr h200, ?_, ?_, ?_⟩, ?_⟩
  · simp [Samples.append, Spec.trialResult, dnsLookup_dns_skipped x hdns]
  · simp [Samples.append, Spec.trialResult, dnsLookup_dns_skipped x hdns]
  · intro hnow
    have ht1 : (runTrace x.events).t1 = firstInstant TraceEvent.ConnectStart x.events :=
      foldl_fire_t1_first x.events Clock.zero rfl
        (fun p hp => (dnsFired_false x.events hdns p hp).2) hnow
    simp [Samples.append, Spec.trialResult, Spec.tcpConnect, Spec.total, Spec.start, ht0, ht1,
      runTrace_t3]
  · intro net numbytes iterations hall
    have hresp : ∀ i, i < iterations.toNat → (net i).resp ≠ none := fun i hi => (hall i hi).1
    have hzero : ∀ t ∈ (successes net iterations.toNat).map Spec.dnsLookup, t = 0 := by
      intro t ht
      rw [List.mem_map] at ht
      obtain ⟨y, hy, rfl⟩ := ht
      unfold successes at hy
      rw [List.mem_filter, List.mem_map] at hy
      obtain ⟨⟨i, hi, rfl⟩, _⟩ := hy
      exact dnsLookup_dns_skipped _ (hall i (List.mem_range.mp hi)).2
    refine ⟨⟨_, Download_responded net numbytes iterations hresp, ?_⟩,
      fun rt hbytes hmake henc =>
        ⟨_, Upload_responded rt net numbytes iterations hbytes hmake henc hresp, ?_⟩⟩
    · simpa [Spec.trialResult] using hzero
    · simpa [Spec.trialResult] using hzero

/-- C4 at the exchange `literalAddress`, where the connection attempt starts at
the instant at which the connection is handed over. -/
theorem C4_dns_skipped_witness :
    dnsFired literalAddress.events = false ∧
    (∃ d u : Samples, downloadIteration "http" literalAddress Samples.empty = some d ∧
      uploadIteration "http" literalAddress Samples.empty = some u ∧
      d.dnstimes = [0] ∧ u.dnstimes = [0] ∧ d.tcptimes = [0] ∧ u.tcptimes = [0] ∧
      d.fulltimes = [150000000] ∧ u.fulltimes = [150000000]) := by
  have hdns : dnsFired literalAddress.events = false := by decide
  have hnow : ∀ p ∈ literalAddress.events, p.1 = TraceEvent.ConnectStart → p.2 ≠ 0 := by
    decide
  obtain ⟨⟨d, u, hd, hu, hdd, hud, hrest⟩, _⟩ :=
    C4_dns_skipped "http" (Or.inl rfl) literalAddress Samples.empty ⟨200⟩ rfl rfl hdns
  obtain ⟨hdt, hut, hdf, huf⟩ := hrest hnow
  refine ⟨hdns, d, u, hd, hu, hdd, hud, hdt.trans ?_, hut.trans ?_, hdf.trans ?_,
    huf.trans ?_⟩ <;> decide

/-! ## Signs and sums of the recorded durations -/

theorem start_le_t1 (x : Exchange) (h : Spec.Ordered x) :
    Spec.start x ≤ (runTrace x.events).t1 := by
  unfold Spec.start
  split
  · exact Nat.le_refl _
  · next h0 => exact h.1 h0

/-- C5: for an exchange with status code 200 whose timestamps are non-decreasing
in the listed order (dnsStart when present, dnsEnd or the connectStart
substitute, connectionHandedOver, firstByte, bodyComplete), each of the five
durations that `Download` and `Upload` append, in the http and in the https
branch, is non-negative. -/
theorem C5_durations_nonneg (scheme : String) (hs : scheme = "http" ∨ scheme = "https")
    (x : Exchange) (acc : Samples) (r : Response) (hr : x.resp = some r)
    (h200 : r.StatusCode = 200) (hord : Spec.Ordered x) :
    (∃ full server tcp dns transfer : Duration,
      downloadIteration scheme x acc = some
        { fulltimes := acc.fulltimes ++ [full]
          servertimes := acc.servertimes ++ [server]
          tcptimes := acc.tcptimes ++ [tcp]
          dnstimes := acc.dnstimes ++ [dns]
          transfertimes := acc.transfertimes ++ [transfer] } ∧
      0 ≤ full ∧ 0 ≤ server ∧ 0 ≤ tcp ∧ 0 ≤ dns ∧ 0 ≤ transfer) ∧
    (∃ full server tcp dns transfer : Duration,
      uploadIteration scheme x acc = some
        { fulltimes := acc.fulltimes ++ [full]
          servertimes := acc.servertimes ++ [server]
          tcptimes := acc.tcptimes ++ [tcp]
          dnstimes := acc.dnstimes ++ [dns]
          transfertimes := acc.transfertimes ++ [transfer] } ∧
      0 ≤ full ∧ 0 ≤ server ∧ 0 ≤ tcp ∧ 0 ≤ dns ∧ 0 ≤ transfer) := by
  have h01 := start_le_t1 x hord
  obtain ⟨_, h13, h34, h47⟩ := hord
  have hfull : 0 ≤ Spec.total x :=
    Time.Sub_nonneg _ _ (le_trans h01 (le_trans h13 (le_trans h34 h47)))
  have hserver : 0 ≤ Spec.serverProcessing x := Time.Sub_nonneg _ _ h34
  have htcp : 0 ≤ Spec.tcpConnect x := Time.Sub_nonneg _ _ h13
  have hdnsl : 0 ≤ Spec.dnsLookup x := Time.Sub_nonneg _ _ h01
  refine ⟨⟨Spec.total x, Spec.serverProcessing x, Spec.tcpConnect x, Spec.dnsLookup x,
      Spec.downloadTransfer x, ?_, hfull, hserver, htcp, hdnsl, Time.Sub_nonneg _ _ h47⟩,
    ⟨Spec.total x, Spec.serverProcessing x, Spec.tcpConnect x, Spec.dnsLookup x,
      Spec.uploadTransfer x, ?_, hfull, hserver, htcp, hdnsl,
      Time.Sub_nonneg _ _ (le_trans h34 h47)⟩⟩
  · rw [downloadIteration_succeeded scheme hs x acc r hr h200]
    simp [Samples.append, Spec.trialResult]
  · rw [uploadIteration_succeeded scheme hs x acc r hr h200]
    simp [Samples.append, Spec.trialResult]

/-- C5 at the second exchange of `twoOfFive`, whose DNS hooks fired, in the https
branch. -/
theorem C5_durations_nonneg_witness :
    Spec.Ordered (twoOfFive 1) ∧
    (∃ full server tcp dns transfer : Duration,
      downloadIteration "https" (twoOfFive 1) Samples.empty
        = some ⟨[full], [server], [tcp], [dns], [transfer]⟩ ∧
      0 ≤ full ∧ 0 ≤ server ∧ 0 ≤ tcp ∧ 0 ≤ dns ∧ 0 ≤ transfer) := by
  have hord : Spec.Ordered (twoOfFive 1) := by
    unfold Spec.Ordered
    decide
  exact ⟨hord,
    (C5_durations_nonneg "https" (Or.inr rfl) (twoOfFive 1) Samples.empty ⟨200⟩ rfl rfl hord).1⟩

theorem Time.Sub_exact_of_window (lo t u : Nat) (ht : lo ≤ t ∧ (t : Int) ≤ (lo : Int) + maxDuration)
    (hu : lo ≤ u ∧ (u : Int) ≤ (lo : Int) + maxDuration) : Time.Sub t u = (t : Int) - (u : Int) := by
  have h1 : (lo : Int) ≤ (t : Int) := Int.ofNat_le.mpr ht.1
  have h2 : (lo : Int) ≤ (u : Int) := Int.ofNat_le.mpr hu.1
  have h3 : (t : Int) ≤ (lo : Int) + (2 ^ 63 - 1) := ht.2
  have h4 : (u : Int) ≤ (lo : Int) + (2 ^ 63 - 1) := hu.2
  apply Time.Sub_exact
  · show (-(2 ^ 63) : Int) ≤ _
    omega
  · show _ ≤ ((2 ^ 63 - 1 : Int))
    omega

/-- C10: for an exchange with status code 200 whose instants lie within one
`time.Duration` of each other, the durations `Download` appends satisfy
total = dnsLookup + tcpConnect + serverProcessing + transfer, and those `Upload`
appends satisfy total = dnsLookup + tcpConnect + transfer (the upload transfer
interval contains serverProcessing), in the http and in the https branch. -/
theorem C10_total_decomposes (scheme : String) (hs : scheme = "http" ∨ scheme = "https")
    (x : Exchange) (acc : Samples) (r : Response) (hr : x.resp = some r)
    (h200 : r.StatusCode = 200) (hb : Spec.Bounded x) :
    (∃ full server tcp dns transfer : Duration,
      downloadIteration scheme x acc = some
        { fulltimes := acc.fulltimes ++ [full]
          servertimes := acc.servertimes ++ [server]
          tcptimes := acc.tcptimes ++ [tcp]
          dnstimes := acc.dnstimes ++ [dns]
          transfertimes := acc.transfertimes ++ [transfer] } ∧
      full = dns + tcp + server + transfer) ∧
    (∃ full server tcp dns transfer : Duration,
      uploadIteration scheme x acc = some
        { fulltimes := acc.fulltimes ++ [full]
          servertimes := acc.servertimes ++ [server]
          tcptimes := acc.tcptimes ++ [tcp]
          dnstimes := acc.dnstimes ++ [dns]
          transfertimes := acc.transfertimes ++ [transfer] } ∧
      full = dns + tcp + transfer ∧ transfer = server + Spec.downloadTransfer x) := by
  obtain ⟨lo, hlo⟩ := hb
  have w0 := hlo (Spec.start x) (by simp)
  have w1 := hlo (runTrace x.events).t1 (by simp)
  have w3 := hlo (runTrace x.events).t3 (by simp)
  have w4 := hlo (runTrace x.events).t4 (by simp)
  have w7 := hlo x.t7 (by simp)
  have efull : Spec.total x = _ := Time.Sub_exact_of_window lo _ _ w7 w0
  have eserver : Spec.serverProcessing x = _ := Time.Sub_exact_of_window lo _ _ w4 w3
  have etcp : Spec.tcpConnect x = _ := Time.Sub_exact_of_window lo _ _ w3 w1
  have edns : Spec.dnsLookup x = _ := Time.Sub_exact_of_window lo _ _ w1 w0
  have edown : Spec.downloadTransfer x = _ := Time.Sub_exact_of_window lo _ _ w7 w4
  have eup : Spec.uploadTransfer x = _ := Time.Sub_exact_of_window lo _ _ w7 w3
  refine ⟨⟨Spec.total x, Spec.serverProcessing x, Spec.tcpConnect x, Spec.dnsLookup x,
      Spec.downloadTransfer x, ?_, ?_⟩,
    ⟨Spec.total x, Spec.serverProcessing x, Spec.tcpConnect x, Spec.dnsLookup x,
      Spec.uploadTransfer x, ?_, ?_, ?_⟩⟩
  · rw [downloadIteration_succeeded scheme hs x acc r hr h200]
    simp [Samples.append, Spec.trialResult]
  · rw [efull, eserver, etcp, edns, edown]
    ring
  · rw [uploadIteration_succeeded scheme hs x acc r hr h200]
    simp [Samples.append, Spec.trialResult]
  · rw [efull, etcp, edns, eup]
    ring
  · rw [eserver, edown, eup]
    ring

/-- C10 at the exchange `literalAddress`: no DNS and no connect time, 50ms of
server processing and 100ms of transfer add up to a total of 150ms. -/
theorem C10_total_decomposes_witness :
    Spec.Bounded literalAddress ∧
    downloadIteration "http" literalAddress Samples.empty
      = some ⟨[150000000], [50000000], [0], [0], [100000000]⟩ ∧
    (∃ full server tcp dns transfer : Duration,
      downloadIteration "http" literalAddress Samples.empty
        = some ⟨[full], [server], [tcp], [dns], [transfer]⟩ ∧
      full = dns + tcp + server + transfer) := by
  have hb : Spec.Bounded literalAddress := by
    refine ⟨63000000000000000000, ?_⟩
    unfold maxDuration
    decide
  exact ⟨hb, by decide,
    (C10_total_decomposes "http" (Or.inl rfl) literalAddress Samples.empty ⟨200⟩ rfl rfl hb).1⟩

/-! ## The orchestration -/

theorem calls_append {F : Type} (a b : List (Event F)) : calls (a ++ b) = calls a ++ calls b := by
  simp [calls]

theorem calls_latencyTest {F : Type} [Div F] [IntCast F] (h : Helpers F) (net : Nat → Exchange) :
    calls (latencyTest h net).1 = [Event.download 0 20] := by
  unfold latencyTest
  split
  · rfl
  · split <;> rfl

theorem calls_downloadTest {F : Type} [Div F] [IntCast F] (h : Helpers F) (net : Nat → Exchange)
    (t : Test) : calls (downloadTest h net t).1 = [Event.download t.NumBytes t.Iterations] := by
  unfold downloadTest
  split
  · rfl
  · split <;> rfl

theorem calls_uploadTest {F : Type} [Div F] [IntCast F] (rt : Runtime) (h : Helpers F)
    (net : Nat → Exchange) (t : Test) :
    calls (uploadTest rt h net t).1 = [Event.upload t.NumBytes t.Iterations] := by
  unfold uploadTest
  split
  · rfl
  · split <;> rfl

/-- A download test that gets to its end has had every helper function return on
the durations of its successful exchanges, and has printed its three lines. -/
theorem downloadTest_finished {F : Type} [Div F] [IntCast F] (h : Helpers F)
    (net : Nat → Exchange) (t : Test) (sp : F) (hsp : (downloadTest h net t).2 = some sp) :
    ∃ lat avg jit : F,
      h.CalculateAverageDuration ((successes net t.Iterations.toNat).map Spec.total)
        = some lat ∧
      h.CalculateAverageDurationSeconds
        ((successes net t.Iterations.toNat).map Spec.downloadTransfer) = some avg ∧
      h.CalculateCorrectedDeviation ((successes net t.Iterations.toNat).map Spec.tcpConnect)
        = some jit ∧
      sp = speedMbps t.NumBytes avg ∧
      (downloadTest h net t).1
        = [Event.download t.NumBytes t.Iterations,
           Event.print ("cf_" ++ t.Name ++ "_download_latency_ms")
             (lat / ((1000000 : Int) : F)),
           Event.print ("cf_" ++ t.Name ++ "_download_Mbps") (speedMbps t.NumBytes avg),
           Event.print ("cf_" ++ t.Name ++ "_download_tcp_jitter")
             (jit / ((1000000 : Int) : F))] := by
  cases hD : Download net t.NumBytes t.Iterations with
  | none => simp [downloadTest, hD] at hsp
  | some r =>
    obtain ⟨_, hr⟩ := Download_returns net t.NumBytes t.Iterations r hD
    subst hr
    simp only [downloadTest, hD, Spec.trialResult] at hsp ⊢
    split at hsp
    · next jit avg lat hj ha hl =>
      simp only [Option.some.injEq] at hsp
      refine ⟨lat, avg, jit, hl, ha, hj, hsp.symm, ?_⟩
      simp [hj, ha, hl]
    · cases hsp

theorem uploadTest_finished {F : Type} [Div F] [IntCast F] (rt : Runtime) (h : Helpers F)
    (net : Nat → Exchange) (t : Test) (sp : F) (hsp : (uploadTest rt h net t).2 = some sp) :
    ∃ lat avg jit : F,
      h.CalculateAverageDuration ((successes net t.Iterations.toNat).map Spec.total)
        = some lat ∧
      h.CalculateAverageDurationSeconds
        ((successes net t.Iterations.toNat).map Spec.uploadTransfer) = some avg ∧
      h.CalculateCorrectedDeviation ((successes net t.Iterations.toNat).map Spec.tcpConnect)
        = some jit ∧
      sp = speedMbps t.NumBytes avg ∧
      (uploadTest rt h net t).1
        = [Event.upload t.NumBytes t.Iterations,
           Event.print ("cf_" ++ t.Name ++ "_upload_latency_ms")
             (lat / ((1000000 : Int) : F)),
           Event.print ("cf_" ++ t.Name ++ "_upload_Mbps") (speedMbps t.NumBytes avg),
           Event.print ("cf_" ++ t.Name ++ "_upload_tcp_jitter")
             (jit / ((1000000 : Int) : F))] := by
  cases hU : Upload rt net t.NumBytes t.Iterations with
  | none => simp [uploadTest, hU] at hsp
  | some r =>
    obtain ⟨_, _, _, _, hr⟩ := Upload_returns rt net t.NumBytes t.Iterations r hU
    subst hr
    simp only [uploadTest, hU, Spec.trialResult] at hsp ⊢
    split at hsp
    · next jit avg lat hj ha hl =>
      simp only [Option.some.injEq] at hsp
      refine ⟨lat, avg, jit, hl, ha, hj, hsp.symm, ?_⟩
      simp [hj, ha, hl]
    · cases hsp

/-- A loop over the download tests that gets to its end has started one trial
per test, in list order, every test has got to its end, and the results hold the
throughput of each test, in list order. -/
theorem downloadTests_finished {F : Type} [Div F] [IntCast F] (h : Helpers F)
    (net : Nat → Nat → Exchange) (tests : List Test) :
    ∀ (k : Nat) (results out : List F),
      (downloadTests h net tests k results).2 = some out →
      ∃ speeds : List F, out = results ++ speeds ∧ speeds.length = tests.length ∧
        calls (downloadTests h net tests k results).1
          = tests.map (fun t => Event.download t.NumBytes t.Iterations) ∧
        ∀ (j : Nat) (t : Test), tests[j]? = some t →
          ∃ sp : F, (downloadTest h (net (k + j)) t).2 = some sp ∧ speeds[j]? = some sp ∧
            ∀ e ∈ (downloadTest h (net (k + j)) t).1,
              e ∈ (downloadTests h net tests k results).1 := by
  induction tests with
  | nil =>
    intro k results out hout
    simp only [downloadTests, Option.some.injEq] at hout
    exact ⟨[], by simp [hout], rfl, rfl, fun j t ht => by simp at ht⟩
  | cons t rest ih =>
    intro k results out hout
    cases hsp : (downloadTest h (net k) t).2 with
    | none => simp [downloadTests, hsp] at hout
    | some sp =>
      simp only [downloadTests, hsp] at hout ⊢
      obtain ⟨speeds, hspeeds, hlen, hcalls, hall⟩ := ih (k + 1) (results ++ [sp]) out hout
      refine ⟨sp :: speeds, by simp [hspeeds], by simp [hlen], ?_, ?_⟩
      · rw [calls_append, calls_downloadTest, hcalls]
        rfl
      · intro j u hu
        cases j with
        | zero =>
          simp only [List.getElem?_cons_zero, Option.some.injEq] at hu
          subst hu
          exact ⟨sp, hsp, by simp, fun e he => List.mem_append_left _ he⟩
        | succ j =>
          simp only [List.getElem?_cons_succ] at hu
          obtain ⟨sp', h1, h2, h3⟩ := hall j u hu
          rw [show k + 1 + j = k + (j + 1) by omega] at h1 h3
          exact ⟨sp', h1, by simpa using h2, fun e he => List.mem_append_right _ (h3 e he)⟩

theorem uploadTests_finished {F : Type} [Div F] [IntCast F] (rt : Runtime) (h : Helpers F)
    (net : Nat → Nat → Exchange) (tests : List Test) :
    ∀ (k : Nat) (results out : List F),
      (uploadTests rt h net tests k results).2 = some out →
      ∃ speeds : List F, out = results ++ speeds ∧ speeds.length = tests.length ∧
        calls (uploadTests rt h net tests k results).1
          = tests.map (fun t => Event.upload t.NumBytes t.Iterations) ∧
        ∀ (j : Nat) (t : Test), tests[j]? = some t →
          ∃ sp : F, (uploadTest rt h (net (k + j)) t).2 = some sp ∧ speeds[j]? = some sp ∧
            ∀ e ∈ (uploadTest rt h (net (k + j)) t).1,
              e ∈ (uploadTests rt h net tests k results).1 := by
  induction tests with
  | nil =>
    intro k results out hout
    simp only [uploadTests, Option.some.injEq] at hout
    exact ⟨[], by simp [hout], rfl, rfl, fun j t ht => by simp at ht⟩
  | cons t rest ih =>
    intro k results out hout
    cases hsp : (uploadTest rt h (net k) t).2 with
    | none => simp [uploadTests, hsp] at hout
    | some sp =>
      simp only [uploadTests, hsp] at hout ⊢
      obtain ⟨speeds, hspeeds, hlen, hcalls, hall⟩ := ih (k + 1) (results ++ [sp]) out hout
      refine ⟨sp :: speeds, by simp [hspeeds], by simp [hlen], ?_, ?_⟩
      · rw [calls_append, calls_uploadTest, hcalls]
        rfl
      · intro j u hu
        cases j with
        | zero =>
          simp only [List.getElem?_cons_zero, Option.some.injEq] at hu
          subst hu
          exact ⟨sp, hsp, by simp, fun e he => List.mem_append_left _ he⟩
        | succ j =>
          simp only [List.getElem?_cons_succ] at hu
          obtain ⟨sp', h1, h2, h3⟩ := hall j u hu
          rw [show k + 1 + j = k + (j + 1) by omega] at h1 h3
          exact ⟨sp', h1, by simpa using h2, fun e he => List.mem_append_right _ (h3 e he)⟩

/-- The events of a run that reaches its end: the timestamp line, the events of
the latency trial, of the download tests, the download percentile and its line,
the events of the upload tests, the upload percentile and its line. -/
theorem RunAllTests_finished {F : Type} [Div F] [IntCast F] (rt : Runtime) (h : Helpers F)
    (s : Speedtest) (start_timestamp : Int) (net : Nat → Nat → Exchange)
    (hfin : (RunAllTests rt h s start_timestamp net).2 = true) :
    ∃ (downs ups : List F),
      (downloadTests h net s.DownloadTests 1 []).2 = some downs ∧
      (uploadTests rt h net s.UploadTests (1 + s.DownloadTests.length) []).2 = some ups ∧
      (RunAllTests rt h s start_timestamp net).1
        = [Event.printInt "cf_start_timestamp" start_timestamp]
          ++ (latencyTest h (net 0)).1
          ++ (downloadTests h net s.DownloadTests 1 []).1
          ++ [Event.percentile downs ((90 : Int) : F),
              Event.print "cf_90th_percentile_download_speed"
                (h.Percentile downs ((90 : Int) : F)).1]
          ++ (uploadTests rt h net s.UploadTests (1 + s.DownloadTests.length) []).1
          ++ [Event.percentile ups ((90 : Int) : F),
              Event.print "cf_90th_percentile_upload_speed"
                (h.Percentile ups ((90 : Int) : F)).1] := by
  unfold RunAllTests at hfin ⊢
  split at hfin
  · cases hfin
  · next l1 hl1 =>
    split at hfin
    · cases hfin
    · next l2 downs hl2 =>
      split at hfin
      · cases hfin
      · next l4 ups hl4 =>
        refine ⟨downs, ups, by rw [hl2], by rw [hl4], ?_⟩
        simp only [hl1, hl2, hl4]

/-- C6, the claim as stated fails: with no download and no upload test
configured, on a network whose every exchange succeeds, both throughput
sequences handed to `stats.Percentile` are empty, it returns an error, and the
run still prints the two 90th-percentile lines with the value returned beside
the error. -/
theorem C6_counterexample :
    (symbolic.Percentile [] (Sym.ofInt 90)).2 = some stats.EmptyInputErr ∧
    RunAllTests runtime64 symbolic noTests 0 steadyNet =
      ([Event.printInt "cf_start_timestamp" 0,
        Event.download 0 20,
        Event.print "cf_latency_ms"
          (Sym.div (Sym.averageDuration (List.replicate 20 0)) (Sym.ofInt 1000000)),
        Event.print "cf_tcp_jitter_ms"
          (Sym.div (Sym.correctedDeviation (List.replicate 20 0)) (Sym.ofInt 1000000)),
        Event.print "cf_dnslookup_ms"
          (Sym.div (Sym.averageDuration (List.replicate 20 0)) (Sym.ofInt 1000000)),
        Event.percentile [] (Sym.ofInt 90),
        Event.print "cf_90th_percentile_download_speed" (Sym.percentile [] (Sym.ofInt 90)),
        Event.percentile [] (Sym.ofInt 90),
        Event.print "cf_90th_percentile_upload_speed" (Sym.percentile [] (Sym.ofInt 90))],
       true) := by
  constructor
  · rfl
  · rfl

/-- C6 as amended: `RunAllTests` has no guard on the number of samples.  In
every run that reaches its end, a configured test without a successful sample
(every iteration answered with a status other than 200) has had the helper
functions called on the empty sequence and has its latency, Mbps and tcp-jitter
lines printed with the values they returned, the Mbps value being
`(float64(NumBytes*8) / CalculateAverageDurationSeconds(empty)) / 1e6`; and the
two 90th-percentile lines are printed with the value `stats.Percentile`
returned, its error being discarded, for throughput sequences that hold one
entry per configured test and so are empty when no test is configured. -/
theorem C6_lines_printed_without_samples {F : Type} [Div F] [IntCast F] (rt : Runtime)
    (h : Helpers F) (s : Speedtest) (start_timestamp : Int) (net : Nat → Nat → Exchange)
    (hfin : (RunAllTests rt h s start_timestamp net).2 = true) :
    (∀ (j : Nat) (t : Test), s.DownloadTests[j]? = some t →
      successes (net (1 + j)) t.Iterations.toNat = [] →
      ∃ lat avg jit : F,
        h.CalculateAverageDuration [] = some lat ∧
        h.CalculateAverageDurationSeconds [] = some avg ∧
        h.CalculateCorrectedDeviation [] = some jit ∧
        Event.print ("cf_" ++ t.Name ++ "_download_latency_ms") (lat / ((1000000 : Int) : F))
          ∈ (RunAllTests rt h s start_timestamp net).1 ∧
        Event.print ("cf_" ++ t.Name ++ "_download_Mbps") (speedMbps t.NumBytes avg)
          ∈ (RunAllTests rt h s start_timestamp net).1 ∧
        Event.print ("cf_" ++ t.Name ++ "_download_tcp_jitter")
            (jit / ((1000000 : Int) : F))
          ∈ (RunAllTests rt h s start_timestamp net).1) ∧
    (∀ (j : Nat) (t : Test), s.UploadTests[j]? = some t →
      successes (net (1 + s.DownloadTests.length + j)) t.Iterations.toNat = [] →
      ∃ lat avg jit : F,
        h.CalculateAverageDuration [] = some lat ∧
        h.CalculateAverageDurationSeconds [] = some avg ∧
        h.CalculateCorrectedDeviation [] = some jit ∧
        Event.print ("cf_" ++ t.Name ++ "_upload_latency_ms") (lat / ((1000000 : Int) : F))
          ∈ (RunAllTests rt h s start_timestamp net).1 ∧
        Event.print ("cf_" ++ t.Name ++ "_upload_Mbps") (speedMbps t.NumBytes avg)
          ∈ (RunAllTests rt h s start_timestamp net).1 ∧
        Event.print ("cf_" ++ t.Name ++ "_upload_tcp_jitter") (jit / ((1000000 : Int) : F))
          ∈ (RunAllTests rt h s start_timestamp net).1) ∧
    (∃ downs ups : List F,
      downs.length = s.DownloadTests.length ∧ ups.length = s.UploadTests.length ∧
      Event.print "cf_90th_percentile_download_speed"
          (h.Percentile downs ((90 : Int) : F)).1
        ∈ (RunAllTests rt h s start_timestamp net).1 ∧
      Event.print "cf_90th_percentile_upload_speed" (h.Percentile ups ((90 : Int) : F)).1
        ∈ (RunAllTests rt h s start_timestamp net).1) := by
  obtain ⟨downs, ups, hdowns, hups, hlog⟩ := RunAllTests_finished rt h s start_timestamp net hfin
  obtain ⟨dspeeds, hd1, hdlen, _, hdall⟩ :=
    downloadTests_finished h net s.DownloadTests 1 [] downs hdowns
  obtain ⟨uspeeds, hu1, hulen, _, huall⟩ :=
    uploadTests_finished rt h net s.UploadTests (1 + s.DownloadTests.length) [] ups hups
  rw [hlog]
  refine ⟨?_, ?_, ?_⟩
  · intro j t ht hnone
    obtain ⟨sp, hsp, _, hmem⟩ := hdall j t ht
    obtain ⟨lat, avg, jit, hl, ha, hj, _, hev⟩ := downloadTest_finished h (net (1 + j)) t sp hsp
    rw [hnone] at hl ha hj
    rw [hev] at hmem
    refine ⟨lat, avg, jit, hl, ha, hj, ?_, ?_, ?_⟩ <;>
    · simp only [List.mem_append]
      exact Or.inl (Or.inl (Or.inl (Or.inr (hmem _ (by simp)))))
  · intro j t ht hnone
    obtain ⟨sp, hsp, _, hmem⟩ := huall j t ht
    obtain ⟨lat, avg, jit, hl, ha, hj, _, hev⟩ :=
      uploadTest_finished rt h (net (1 + s.DownloadTests.length + j)) t sp hsp
    rw [hnone] at hl ha hj
    rw [hev] at hmem
    refine ⟨lat, avg, jit, hl, ha, hj, ?_, ?_, ?_⟩ <;>
    · simp only [List.mem_append]
      exact Or.inl (Or.inr (hmem _ (by simp)))
  · refine ⟨downs, ups, by simp [hd1, hdlen], by simp [hu1, hulen], ?_, ?_⟩
    · simp only [List.mem_append]
      exact Or.inl (Or.inl (Or.inr (by simp)))
    · simp only [List.mem_append]
      exact Or.inr (by simp)

/-- C6 as amended, at the configuration `oneDownload` on the network
`rejectingNet`, whose every exchange is answered with status 500, with helper
functions that return on the empty sequence. -/
theorem C6_lines_printed_without_samples_witness :
    (RunAllTests runtime64 symbolic oneDownload 0 rejectingNet).2 = true ∧
    (∃ lat avg jit : Sym,
      symbolic.CalculateAverageDuration [] = some lat ∧
      symbolic.CalculateAverageDurationSeconds [] = some avg ∧
      symbolic.CalculateCorrectedDeviation [] = some jit ∧
      Event.print "cf_100kB_download_latency_ms" (lat / ((1000000 : Int) : Sym))
        ∈ (RunAllTests runtime64 symbolic oneDownload 0 rejectingNet).1 ∧
      Event.print "cf_100kB_download_Mbps" (speedMbps 101000 avg)
        ∈ (RunAllTests runtime64 symbolic oneDownload 0 rejectingNet).1 ∧
      Event.print "cf_100kB_download_tcp_jitter" (jit / ((1000000 : Int) : Sym))
        ∈ (RunAllTests runtime64 symbolic oneDownload 0 rejectingNet).1) := by
  have hfin : (RunAllTests runtime64 symbolic oneDownload 0 rejectingNet).2 = true := rfl
  exact ⟨hfin,
    (C6_lines_printed_without_samples runtime64 symbolic oneDownload 0 rejectingNet hfin).1
      0 ⟨101000, 1, "100kB"⟩ rfl (by decide)⟩

/-! ## Throughput -/

theorem wrapInt64_of_fits (x : Int) (h0 : 0 ≤ x) (h1 : x < 2 ^ 63) : wrapInt64 x = x := by
  unfold wrapInt64
  rw [Int.emod_eq_of_lt (by omega) (by omega)]
  omega

/-- C7, the claim as stated fails: doubling a byte count of `2^60` makes the
product `NumBytes*8` wrap around to `0`, so the throughput of the doubled count
is `0` and not twice the (negative, wrapped) throughput of `2^60` bytes. -/
theorem C7_counterexample :
    speedMbps (2 * 2 ^ 60) (1 : ℚ) ≠ 2 * speedMbps (2 ^ 60) (1 : ℚ) := by
  norm_num [speedMbps, wrapInt64]

/-- C7 as amended: over exact arithmetic, for a non-negative byte count, a
positive integer `k` and a positive duration `d`, the throughput is linear in
the byte count as long as `k * NumBytes * 8` does not overflow `int`, and it is
inversely proportional to the duration without further condition. -/
theorem C7_speed_scaling (NumBytes : Int) (k : Nat) (d : ℚ) (hn : 0 ≤ NumBytes) (hk : 0 < k)
    (hd : 0 < d) :
    ((k : Int) * NumBytes * 8 < 2 ^ 63 →
      speedMbps ((k : Int) * NumBytes) d = (k : ℚ) * speedMbps NumBytes d) ∧
    speedMbps NumBytes ((k : ℚ) * d) = speedMbps NumBytes d / (k : ℚ) := by
  have hk' : (1 : Int) ≤ (k : Int) := by exact_mod_cast hk
  have hkq : (k : ℚ) ≠ 0 := by exact_mod_cast (Nat.pos_iff_ne_zero.mp hk)
  have hdq : d ≠ 0 := ne_of_gt hd
  constructor
  · intro hfit
    have hkn : 0 ≤ (k : Int) * NumBytes := Int.mul_nonneg (by omega) hn
    have hle : NumBytes ≤ (k : Int) * NumBytes := by nlinarith
    have e1 : wrapInt64 ((k : Int) * NumBytes * 8) = (k : Int) * NumBytes * 8 :=
      wrapInt64_of_fits _ (by omega) hfit
    have e2 : wrapInt64 (NumBytes * 8) = NumBytes * 8 :=
      wrapInt64_of_fits _ (by omega) (by omega)
    unfold speedMbps
    rw [e1, e2]
    push_cast
    field_simp
    ring
  · unfold speedMbps
    field_simp
    exact Or.inl (by ring)

/-- C7 as amended, at 100000 bytes, `k = 2` and a transfer of a tenth of a
second: 8 Mbps for 100000 bytes, 16 Mbps for twice the bytes, 4 Mbps for twice
the duration. -/
theorem C7_speed_scaling_witness :
    speedMbps 100000 (1 / 10 : ℚ) = 8 ∧
    speedMbps ((2 : Nat) * 100000) (1 / 10 : ℚ) = (2 : Nat) * speedMbps 100000 (1 / 10 : ℚ) ∧
    speedMbps 100000 ((2 : Nat) * (1 / 10 : ℚ)) = speedMbps 100000 (1 / 10 : ℚ) / (2 : Nat) := by
  have h := C7_speed_scaling 100000 2 (1 / 10) (by norm_num) (by norm_num) (by norm_num)
  exact ⟨by norm_num [speedMbps, wrapInt64], h.1 (by norm_num), h.2⟩

/-! ## Order of the trials -/

/-- C8, the claim as stated fails: with a first upload test of `2^60` bytes, on
a network whose every exchange succeeds, the run panics in `make` when the first
upload trial starts; the second upload trial is never run and no percentile
of the upload results is computed. -/
theorem C8_counterexample :
    RunAllTests runtime64 symbolic hugeUpload 0 steadyNet =
      ([Event.printInt "cf_start_timestamp" 0,
        Event.download 0 20,
        Event.print "cf_latency_ms"
          (Sym.div (Sym.averageDuration (List.replicate 20 0)) (Sym.ofInt 1000000)),
        Event.print "cf_tcp_jitter_ms"
          (Sym.div (Sym.correctedDeviation (List.replicate 20 0)) (Sym.ofInt 1000000)),
        Event.print "cf_dnslookup_ms"
          (Sym.div (Sym.averageDuration (List.replicate 20 0)) (Sym.ofInt 1000000)),
        Event.percentile [] (Sym.ofInt 90),
        Event.print "cf_90th_percentile_download_speed" (Sym.percentile [] (Sym.ofInt 90)),
        Event.upload (2 ^ 60) 1],
       false) := by
  rfl

/-- C8 as amended: in every run of `RunAllTests` that reaches its end, the
trials and percentile calls are, in this order: the latency trial
`Download(0, 20)`; one `Download` per entry of `DownloadTests` in list order; the
percentile, with argument 90, of the download results, which hold one throughput
per entry of `DownloadTests` in list order; one `Upload` per entry of
`UploadTests` in list order; the percentile, with argument 90, of the upload
results, one throughput per entry of `UploadTests` in list order. -/
theorem C8_trial_order {F : Type} [Div F] [IntCast F] (rt : Runtime) (h : Helpers F)
    (s : Speedtest) (start_timestamp : Int) (net : Nat → Nat → Exchange)
    (hfin : (RunAllTests rt h s start_timestamp net).2 = true) :
    ∃ downs ups : List F,
      calls (RunAllTests rt h s start_timestamp net).1
        = [Event.download 0 20]
          ++ s.DownloadTests.map (fun t => Event.download t.NumBytes t.Iterations)
          ++ [Event.percentile downs ((90 : Int) : F)]
          ++ s.UploadTests.map (fun t => Event.upload t.NumBytes t.Iterations)
          ++ [Event.percentile ups ((90 : Int) : F)] ∧
      downs.length = s.DownloadTests.length ∧
      ups.length = s.UploadTests.length ∧
      (∀ (j : Nat) (t : Test), s.DownloadTests[j]? = some t →
        ∃ avg : F,
          h.CalculateAverageDurationSeconds
            ((successes (net (1 + j)) t.Iterations.toNat).map Spec.downloadTransfer)
            = some avg ∧
          downs[j]? = some (speedMbps t.NumBytes avg)) ∧
      (∀ (j : Nat) (t : Test), s.UploadTests[j]? = some t →
        ∃ avg : F,
          h.CalculateAverageDurationSeconds
            ((successes (net (1 + s.DownloadTests.length + j)) t.Iterations.toNat).map
              Spec.uploadTransfer) = some avg ∧
          ups[j]? = some (speedMbps t.NumBytes avg)) := by
  obtain ⟨downs, ups, hdowns, hups, hlog⟩ := RunAllTests_finished rt h s start_timestamp net hfin
  obtain ⟨dspeeds, hd1, hdlen, hdcalls, hdall⟩ :=
    downloadTests_finished h net s.DownloadTests 1 [] downs hdowns
  obtain ⟨uspeeds, hu1, hulen, hucalls, huall⟩ :=
    uploadTests_finished rt h net s.UploadTests (1 + s.DownloadTests.length) [] ups hups
  have hd2 : downs = dspeeds := by simpa using hd1
  have hu2 : ups = uspeeds := by simpa using hu1
  refine ⟨downs, ups, ?_, by rw [hd2, hdlen], by rw [hu2, hulen], ?_, ?_⟩
  · rw [hlog]
    simp only [calls_append, calls_latencyTest, hdcalls, hucalls]
    simp [calls, Event.isCall]
  · intro j t ht
    obtain ⟨sp, hsp, hget, _⟩ := hdall j t ht
    obtain ⟨_, avg, _, _, ha, _, hspeed, _⟩ := downloadTest_finished h (net (1 + j)) t sp hsp
    exact ⟨avg, ha, by rw [hd2, hget, hspeed]⟩
  · intro j t ht
    obtain ⟨sp, hsp, hget, _⟩ := huall j t ht
    obtain ⟨_, avg, _, _, ha, _, hspeed, _⟩ :=
      uploadTest_finished rt h (net (1 + s.DownloadTests.length + j)) t sp hsp
    exact ⟨avg, ha, by rw [hu2, hget, hspeed]⟩

/-- C8 as amended, at a configuration with one download and one upload test, on a
network whose every exchange succeeds. -/
theorem C8_trial_order_witness :
    (RunAllTests runtime64 symbolic oneEach 0 steadyNet).2 = true ∧
    (∃ downs ups : List Sym,
      calls (RunAllTests runtime64 symbolic oneEach 0 steadyNet).1
        = [Event.download 0 20, Event.download 101000 1,
           Event.percentile downs (Sym.ofInt 90), Event.upload 101000 2,
           Event.percentile ups (Sym.ofInt 90)] ∧
      downs.length = 1 ∧ ups.length = 1) := by
  have hfin : (RunAllTests runtime64 symbolic oneEach 0 steadyNet).2 = true := rfl
  obtain ⟨downs, ups, hcalls, hd, hu, _, _⟩ :=
    C8_trial_order runtime64 symbolic oneEach 0 steadyNet hfin
  exact ⟨hfin, downs, ups, hcalls, hd, hu⟩

end speedtest

namespace stats

/-! ## Sum -/

theorem sumLoop_eq_foldl {F : Type} [Add F] (input : List F) :
    ∀ sum : F, sumLoop sum input = input.foldl (fun acc n => acc + n) sum := by
  induction input with
  | nil => intro sum; rfl
  | cons n rest ih => intro sum; simp [sumLoop, ih]

/-- C9: `Sum` returns `(NaN, EmptyInputErr)` exactly when the input is empty, its
error is nil exactly when the input is non-empty, and for a non-empty input its
value is the sum of the elements accumulated from left to right starting at
zero. -/
theorem C9_Sum_error_iff_empty {F : Type} [Add F] [Zero F] (NaN : F) (input : List F) :
    (Sum NaN input = (NaN, some EmptyInputErr) ↔ input = []) ∧
    ((Sum NaN input).2 = some EmptyInputErr ↔ input = []) ∧
    ((Sum NaN input).2 = none ↔ input ≠ []) ∧
    (input ≠ [] → Sum NaN input = (input.foldl (fun acc n => acc + n) 0, none)) := by
  cases input with
  | nil => simp [Sum]
  | cons n rest => simp [Sum, sumLoop_eq_foldl]

end stats

namespace stats

/-! ## The order of `Less` -/

theorem Less_irrefl {α : Type} [LinearOrder α] (a : float64 α) : Less a a = false := by
  cases a <;> simp [Less, float64.lt, float64.isNaN]

theorem Less_asymm {α : Type} [LinearOrder α] (a b : float64 α) (h : Less a b = true) :
    Less b a = false := by
  cases a <;> cases b <;> simp_all [Less, float64.lt, float64.isNaN]
  exact le_of_lt h

theorem Less_connected {α : Type} [LinearOrder α] (a b : float64 α) (h1 : Less a b = false)
    (h2 : Less b a = false) : a = b := by
  cases a <;> cases b <;> simp_all [Less, float64.lt, float64.isNaN]
  exact le_antisymm h2 h1

theorem not_Less_trans {α : Type} [LinearOrder α] (a b c : float64 α) (h1 : Less a b = false)
    (h2 : Less b c = false) : Less a c = false := by
  cases a <;> cases b <;> cases c <;> simp_all [Less, float64.lt, float64.isNaN]
  exact le_trans h2 h1

/-! ## The insertion sort -/

theorem insertLeft_perm {α : Type} [LinearOrder α] (x : float64 α) (l : List (float64 α)) :
    List.Perm (insertLeft x l) (x :: l) := by
  induction l with
  | nil => exact List.Perm.refl _
  | cons y before ih =>
    unfold insertLeft
    split
    · exact (List.Perm.cons y ih).trans (List.Perm.swap x y before)
    · exact List.Perm.refl _

theorem insertLeft_descending {α : Type} [LinearOrder α] (x : float64 α)
    (l : List (float64 α)) (hl : l.Pairwise (fun a b => Less a b = false)) :
    (insertLeft x l).Pairwise (fun a b => Less a b = false) := by
  induction l with
  | nil => simp [insertLeft]
  | cons y before ih =>
    rw [List.pairwise_cons] at hl
    unfold insertLeft
    split
    · next hxy =>
      rw [List.pairwise_cons]
      refine ⟨fun z hz => ?_, ih hl.2⟩
      rcases List.mem_cons.mp ((insertLeft_perm x before).mem_iff.mp hz) with rfl | hz'
      · exact Less_asymm _ _ hxy
      · exact hl.1 z hz'
    · next hxy =>
      have hxy' : Less x y = false := by simpa using hxy
      rw [List.pairwise_cons]
      refine ⟨fun z hz => ?_, List.pairwise_cons.mpr hl⟩
      rcases List.mem_cons.mp hz with rfl | hz'
      · exact hxy'
      · exact not_Less_trans _ _ _ hxy' (hl.1 z hz')

theorem foldl_insertLeft_perm {α : Type} [LinearOrder α] (data : List (float64 α)) :
    ∀ sorted : List (float64 α),
      List.Perm (data.foldl (fun sorted x => insertLeft x sorted) sorted) (data ++ sorted) := by
  induction data with
  | nil => intro sorted; exact List.Perm.refl _
  | cons x rest ih =>
    intro sorted
    rw [List.foldl_cons]
    refine (ih _).trans ?_
    refine (List.Perm.append_left rest (insertLeft_perm x sorted)).trans ?_
    simp

theorem foldl_insertLeft_descending {α : Type} [LinearOrder α] (data : List (float64 α)) :
    ∀ sorted : List (float64 α), sorted.Pairwise (fun a b => Less a b = false) →
      (data.foldl (fun sorted x => insertLeft x sorted) sorted).Pairwise
        (fun a b => Less a b = false) := by
  induction data with
  | nil => intro sorted h; exact h
  | cons x rest ih =>
    intro sorted h
    rw [List.foldl_cons]
    exact ih _ (insertLeft_descending x sorted h)

theorem sortFloat64s_perm {α : Type} [LinearOrder α] (data : List (float64 α)) :
    List.Perm (sortFloat64s data) data := by
  unfold sortFloat64s
  refine (List.reverse_perm _).trans ?_
  simpa using foldl_insertLeft_perm data []

theorem sortFloat64s_ascending {α : Type} [LinearOrder α] (data : List (float64 α)) :
    (sortFloat64s data).Pairwise (fun a b => Less b a = false) := by
  unfold sortFloat64s
  rw [List.pairwise_reverse]
  exact foldl_insertLeft_descending data [] List.Pairwise.nil

theorem ascending_unique {α : Type} [LinearOrder α] (l₁ l₂ : List (float64 α))
    (hp : List.Perm l₁ l₂) (h1 : l₁.Pairwise (fun a b => Less b a = false))
    (h2 : l₂.Pairwise (fun a b => Less b a = false)) : l₁ = l₂ := by
  haveI : IsAntisymm (float64 α) (fun a b => Less b a = false) :=
    ⟨fun a b hab hba => Less_connected a b hba hab⟩
  exact List.eq_of_perm_of_sorted hp h1 h2

theorem sortFloat64s_congr {α : Type} [LinearOrder α] (l₁ l₂ : List (float64 α))
    (hp : List.Perm l₁ l₂) : sortFloat64s l₁ = sortFloat64s l₂ :=
  ascending_unique _ _
    (((sortFloat64s_perm l₁).trans hp).trans (sortFloat64s_perm l₂).symm)
    (sortFloat64s_ascending l₁) (sortFloat64s_ascending l₂)

theorem Float64sAreSorted_iff {α : Type} [LinearOrder α] (l : List (float64 α)) :
    Float64sAreSorted l = true ↔ l.Pairwise (fun a b => Less b a = false) := by
  induction l with
  | nil => simp [Float64sAreSorted]
  | cons a rest ih =>
    cases rest with
    | nil => simp [Float64sAreSorted]
    | cons b rest =>
      simp only [Float64sAreSorted, Bool.and_eq_true, Bool.not_eq_true', ih]
      constructor
      · rintro ⟨hab, hrest⟩
        refine List.pairwise_cons.mpr ⟨fun z hz => ?_, hrest⟩
        rcases List.mem_cons.mp hz with rfl | hz'
        · exact hab
        · exact not_Less_trans _ _ _ ((List.pairwise_cons.mp hrest).1 z hz') hab
      · intro h
        rw [List.pairwise_cons] at h
        exact ⟨h.1 b (List.mem_cons_self _ _), h.2⟩

theorem sortFloat64s_of_sorted {α : Type} [LinearOrder α] (l : List (float64 α))
    (h : Float64sAreSorted l = true) : sortFloat64s l = l :=
  ascending_unique _ _ (sortFloat64s_perm l) (sortFloat64s_ascending l)
    ((Float64sAreSorted_iff l).mp h)

/-! ## Copies in memory -/

theorem load_length {α : Type} (m : Memory α) (s : Slice) (hv : s.Valid m) :
    (m.load s).length = s.len := by
  have h := hv.2
  simp only [Memory.load, List.length_take, List.length_drop]
  omega

theorem store_whole {α : Type} (m : Memory α) (k n : Nat) (xs : List (float64 α))
    (h : (m.arrays k).length ≤ xs.length) :
    m.store ⟨k, 0, n⟩ xs = { arrays := Function.update m.arrays k xs, next := m.next } := by
  have hd : List.drop (0 + xs.length) (m.arrays k) = [] :=
    List.drop_of_length_le (by omega)
  simp only [Memory.store, hd, List.take_zero, List.nil_append, List.append_nil]

theorem load_whole {α : Type} (m : Memory α) (k n : Nat) (h : (m.arrays k).length = n) :
    m.load ⟨k, 0, n⟩ = m.arrays k := by
  simp only [Memory.load, List.drop_zero]
  exact List.take_of_length_le (Nat.le_of_eq h)

theorem copyslice_eq {α : Type} [Zero α] (m : Memory α) (input : Slice) (hv : input.Valid m) :
    copyslice m input
      = ({ arrays := Function.update m.arrays m.next (m.load input), next := m.next + 1 },
         ⟨m.next, 0, input.len⟩) := by
  have hne : input.array ≠ m.next := Nat.ne_of_lt hv.1
  have hlen := load_length m input hv
  have hsame : (make m input.len).1.load input = m.load input := by
    simp only [make, Memory.load, Function.update_noteq hne]
  have htake : (m.load input).take (min input.len input.len) = m.load input := by
    rw [min_self]
    exact List.take_of_length_le (Nat.le_of_eq hlen)
  unfold copyslice copy
  show ((make m input.len).1.store ⟨m.next, 0, input.len⟩
      (((make m input.len).1.load input).take (min input.len input.len)),
      (⟨m.next, 0, input.len⟩ : Slice)) = _
  rw [hsame, htake, store_whole _ _ _ _ (by simp [make, hlen])]
  simp [make]

/-- On a slice within an allocated array, `sortedCopy` allocates one new array,
holding the sorted elements of the slice, and returns the slice over it; nothing
else changes. -/
theorem sortedCopy_eq {α : Type} [LinearOrder α] [Zero α] (m : Memory α) (input : Slice)
    (hv : input.Valid m) :
    sortedCopy m input
      = ({ arrays := Function.update m.arrays m.next (sortFloat64s (m.load input))
           next := m.next + 1 },
         ⟨m.next, 0, input.len⟩) := by
  have hlen := load_length m input hv
  have hsort : (sortFloat64s (m.load input)).length = input.len := by
    rw [(sortFloat64s_perm (m.load input)).length_eq, hlen]
  unfold sortedCopy Float64s
  rw [copyslice_eq m input hv]
  simp only []
  rw [load_whole _ _ _ (by simp [hlen]), store_whole _ _ _ _ (by simp [hlen, hsort])]
  simp

theorem sortedCopy_load {α : Type} [LinearOrder α] [Zero α] (m : Memory α) (input : Slice)
    (hv : input.Valid m) :
    (sortedCopy m input).1.load (sortedCopy m input).2 = sortFloat64s (m.load input) := by
  have hlen := load_length m input hv
  have hsort : (sortFloat64s (m.load input)).length = input.len := by
    rw [(sortFloat64s_perm (m.load input)).length_eq, hlen]
  rw [sortedCopy_eq m input hv]
  simp only []
  rw [load_whole _ _ _ (by simp [hsort])]
  simp

/-- C11: on a slice within an allocated array, `sortedCopy` returns a slice over
a new backing array whose elements are in ascending order (no element is `Less`
than an earlier one) and are a permutation of the input; every array allocated
before the call, and so the input slice, is unchanged.  Hence two inputs that
are permutations of each other give the same output, and `sortedCopyDif` returns
a slice with the same elements as `sortedCopy`: the input slice itself, in an
unchanged memory, when the input is already sorted, and the result of
`sortedCopy` otherwise. -/
theorem C11_sortedCopy_sorted_permutation {α : Type} [LinearOrder α] [Zero α] (m : Memory α)
    (input : Slice) (hv : input.Valid m) :
    (sortedCopy m input).2.array = m.next ∧
    ((sortedCopy m input).1.load (sortedCopy m input).2).Pairwise
      (fun a b => Less b a = false) ∧
    List.Perm ((sortedCopy m input).1.load (sortedCopy m input).2) (m.load input) ∧
    (∀ a, a < m.next → (sortedCopy m input).1.arrays a = m.arrays a) ∧
    (sortedCopy m input).1.load input = m.load input ∧
    (∀ (m' : Memory α) (input' : Slice), input'.Valid m' →
      List.Perm (m'.load input') (m.load input) →
      (sortedCopy m' input').1.load (sortedCopy m' input').2
        = (sortedCopy m input).1.load (sortedCopy m input).2) ∧
    (sortedCopyDif m input).1.load (sortedCopyDif m input).2
      = (sortedCopy m input).1.load (sortedCopy m input).2 ∧
    (Float64sAreSorted (m.load input) = true → sortedCopyDif m input = (m, input)) ∧
    (Float64sAreSorted (m.load input) = false →
      sortedCopyDif m input = sortedCopy m input) := by
  have hkeep : ∀ a, a < m.next → (sortedCopy m input).1.arrays a = m.arrays a := by
    intro a ha
    rw [sortedCopy_eq m input hv]
    exact Function.update_noteq (Nat.ne_of_lt ha) _ _
  have hdif_true : Float64sAreSorted (m.load input) = true →
      sortedCopyDif m input = (m, input) := by
    intro h
    simp [sortedCopyDif, h]
  have hdif_false : Float64sAreSorted (m.load input) = false →
      sortedCopyDif m input = sortedCopy m input := by
    intro h
    simp [sortedCopyDif, sortedCopy, h]
  refine ⟨?_, ?_, ?_, hkeep, ?_, ?_, ?_, hdif_true, hdif_false⟩
  · rw [sortedCopy_eq m input hv]
  · rw [sortedCopy_load m input hv]
    exact sortFloat64s_ascending _
  · rw [sortedCopy_load m input hv]
    exact sortFloat64s_perm _
  · simp only [Memory.load, hkeep input.array hv.1]
  · intro m' input' hv' hp
    rw [sortedCopy_load m input hv, sortedCopy_load m' input' hv']
    exact sortFloat64s_congr _ _ hp
  · rw [sortedCopy_load m input hv]
    cases hs : Float64sAreSorted (m.load input) with
    | true =>
      rw [hdif_true hs]
      exact (sortFloat64s_of_sorted _ hs).symm
    | false =>
      rw [hdif_false hs]
      exact sortedCopy_load m input hv

/-- C11 at the slice over the whole array of `oneArray`, which holds 3,
not-a-number, 1, 2, 1: the sorted copy holds not-a-number, 1, 1, 2, 3, as does
the sorted copy of the already sorted `otherArray`. -/
theorem C11_sortedCopy_sorted_permutation_witness :
    Slice.Valid oneArray ⟨0, 0, 5⟩ ∧
    (sortedCopy oneArray ⟨0, 0, 5⟩).1.load (sortedCopy oneArray ⟨0, 0, 5⟩).2
      = [float64.NaN, float64.num 1, float64.num 1, float64.num 2, float64.num 3] ∧
    (sortedCopy oneArray ⟨0, 0, 5⟩).1.load ⟨0, 0, 5⟩ = oneArray.load ⟨0, 0, 5⟩ ∧
    (sortedCopy otherArray ⟨0, 0, 5⟩).1.load (sortedCopy otherArray ⟨0, 0, 5⟩).2
      = (sortedCopy oneArray ⟨0, 0, 5⟩).1.load (sortedCopy oneArray ⟨0, 0, 5⟩).2 := by
  have hv : Slice.Valid oneArray ⟨0, 0, 5⟩ := ⟨by decide, by decide⟩
  have hv' : Slice.Valid otherArray ⟨0, 0, 5⟩ := ⟨by decide, by decide⟩
  obtain ⟨_, _, _, _, hinput, hinv, _⟩ :=
    C11_sortedCopy_sorted_permutation oneArray ⟨0, 0, 5⟩ hv
  exact ⟨hv, by decide, hinput, hinv otherArray ⟨0, 0, 5⟩ hv' (by decide)⟩

end stats

namespace speedtest

/-! ## The ordering of header names -/

/-- Unless both names are "Server", `headers.Less` does not hold in both
directions. -/
theorem Less_not_both_unless_Server (h : headers) (i j : Nat) (a b : String)
    (hi : h[i]? = some a) (hj : h[j]? = some b) (hne : ¬(a = "Server" ∧ b = "Server")) :
    ¬(headers.Less h i j = some true ∧ headers.Less h j i = some true) := by
  unfold headers.Less
  rw [hi, hj]
  by_cases ha : a = "Server"
  · have hb : b ≠ "Server" := fun hb => hne ⟨ha, hb⟩
    simp [ha, hb]
  · by_cases hb : b = "Server"
    · simp [ha, hb]
    · simp only [ha, hb, if_false]
      by_cases hxy : endtoend a = endtoend b
      · simp only [hxy, if_true, Option.some.injEq, decide_eq_true_eq]
        exact fun hboth => lt_asymm hboth.1 hboth.2
      · have hyx : ¬ endtoend b = endtoend a := fun e => hxy e.symm
        simp only [hxy, hyx, if_false, Option.some.injEq]
        intro hboth
        exact hxy (hboth.1.trans hboth.2.symm)

/-- C12, the claim as stated fails: for the name "Server" `Less(i, i)` is true,
and with two entries "Server" `Less(i, j)` and `Less(j, i)` are both true; the
test `a == "Server"` returns before `b` is looked at. -/
theorem C12_Less_Server_before_itself :
    headers.Less ["Server"] 0 0 = some true ∧
    headers.Less ["Server", "Server"] 0 1 = some true ∧
    headers.Less ["Server", "Server"] 1 0 = some true := by
  decide

/-- C12 as amended: for indices `i`, `j` within the list, `Less(i, j)` and
`Less(j, i)` are never both true unless both names are "Server", and `Less(i, i)`
is false unless the name is "Server"; `Less` puts "Server" before every name,
every end-to-end name before every hop-by-hop name (Connection, Keep-Alive,
Proxy-Authenticate, Proxy-Authorization, TE, Trailers, Transfer-Encoding,
Upgrade), and orders names of the same class by string comparison. -/
theorem C12_Less_strict_unless_Server (h : headers) (i j : Nat) (a b : String)
    (hi : h[i]? = some a) (hj : h[j]? = some b) :
    (¬(a = "Server" ∧ b = "Server") →
      ¬(headers.Less h i j = some true ∧ headers.Less h j i = some true)) ∧
    (a ≠ "Server" → headers.Less h i i = some false) ∧
    (a = "Server" → headers.Less h i j = some true) ∧
    (a ≠ "Server" → b = "Server" → headers.Less h i j = some false) ∧
    (a ≠ "Server" → b ≠ "Server" → endtoend a = true → endtoend b = false →
      headers.Less h i j = some true) ∧
    (a ≠ "Server" → b ≠ "Server" → endtoend a = false → endtoend b = true →
      headers.Less h i j = some false) ∧
    (a ≠ "Server" → b ≠ "Server" → endtoend a = endtoend b →
      headers.Less h i j = some (decide (a < b))) ∧
    (∀ n : String, endtoend n = false ↔
      n ∈ ["Connection", "Keep-Alive", "Proxy-Authenticate", "Proxy-Authorization", "TE",
        "Trailers", "Transfer-Encoding", "Upgrade"]) := by
  refine ⟨Less_not_both_unless_Server h i j a b hi hj, ?_, ?_, ?_, ?_, ?_, ?_, ?_⟩
  · intro ha
    have hirr : ¬ a < a := lt_irrefl a
    simp [headers.Less, hi, ha, hirr]
  · intro ha
    simp [headers.Less, hi, hj, ha]
  · intro ha hb
    simp [headers.Less, hi, hj, ha, hb]
  · intro ha hb hx hy
    simp [headers.Less, hi, hj, ha, hb, hx, hy]
  · intro ha hb hx hy
    simp [headers.Less, hi, hj, ha, hb, hx, hy]
  · intro ha hb hxy
    simp [headers.Less, hi, hj, ha, hb, hxy]
  · intro n
    simp only [endtoend, List.mem_cons, List.mem_singleton, List.not_mem_nil, or_false]
    split <;> simp_all

/-- C12 as amended, at the names "Upgrade" and "Accept" of a list that also
holds "Server": the end-to-end name "Accept" sorts before the hop-by-hop name
"Upgrade", and not the other way round. -/
theorem C12_Less_strict_unless_Server_witness :
    (["Upgrade", "Server", "Accept"] : headers)[0]? = some "Upgrade" ∧
    (["Upgrade", "Server", "Accept"] : headers)[2]? = some "Accept" ∧
    ¬(headers.Less ["Upgrade", "Server", "Accept"] 0 2 = some true ∧
      headers.Less ["Upgrade", "Server", "Accept"] 2 0 = some true) ∧
    headers.Less ["Upgrade", "Server", "Accept"] 0 2 = some false ∧
    headers.Less ["Upgrade", "Server", "Accept"] 0 0 = some false := by
  have hthm := C12_Less_strict_unless_Server ["Upgrade", "Server", "Accept"] 0 2
    "Upgrade" "Accept" rfl rfl
  exact ⟨rfl, rfl, hthm.1 (by decide), hthm.2.2.2.2.2.1 (by decide) (by decide) (by decide)
    (by decide), hthm.2.1 (by decide)⟩

end speedtest

